import Mathlib

/-
Verification development for the vibe-steel-backend materials router
(src/routers/materials.js): an in-process consistency cache (snapshot
array plus by-spec and by-id maps) mirroring a persistent record store,
with filtered/sorted/paginated search and CRUD write paths.

Modelling conventions:
* machine numbers are modelled as `ℚ` (JS floats) and `ℤ` (JS ints);
  JS `NaN` is modelled by `none` in `Option ℚ` / `Option ℤ`;
* the persistent store (MongoDB via mongoose) is modelled as a
  `List Record`; a store call that throws (`StoreUnavailable`) is
  modelled by a `fail : Bool` parameter on the write call of a handler;
* JS `Map` objects are modelled as association lists with JS `Map`
  get/set/delete semantics;
* `new RegExp(pat, 'i').test(s)` is modelled for patterns whose only
  metacharacter is `.` (every other character is a literal, compared
  case-insensitively), which covers all patterns free of regex
  metacharacters plus the `.` wildcard.
-/

namespace VibeSteel

/-- A JS number that may be `NaN` (`none` models `NaN`). -/
abbrev JsNum := Option ℚ

/-- A JS integer that may be `NaN` (`none` models `NaN`). -/
abbrev JsInt := Option ℤ

/-- JS `===` on possibly-NaN numbers: `NaN === x` is `false`. -/
def jsIntEq : JsInt → JsInt → Bool
  | some a, some b => a == b
  | _, _ => false

/-- Value of a list of decimal digit characters. -/
def decValue (ds : List Char) : ℕ :=
  ds.foldl (fun a c => 10 * a + (c.toNat - 48)) 0

/-- Splits an optional leading sign from a character list, returning the
sign as `1` or `-1`. -/
def splitSign : List Char → ℤ × List Char
  | '-' :: rest => (-1, rest)
  | '+' :: rest => (1, rest)
  | l => (1, l)

/-- Models JS `parseInt(s)` (radix 10) on `s`: optional sign followed by
the longest prefix of decimal digits; no digits gives `NaN` (`none`).
(Leading whitespace and the `0x` prefix are outside the modelled subset.) -/
def jsParseInt (s : String) : JsInt :=
  let (sgn, l) := splitSign s.toList
  let ds := (l.span Char.isDigit).1
  if ds.isEmpty then none else some (sgn * (decValue ds : ℤ))

/-- Models JS `parseFloat(s)`: optional sign, decimal digits, optional
`.` and fraction digits; no digits at all gives `NaN` (`none`).
(Exponents and leading whitespace are outside the modelled subset.) -/
def jsParseFloat (s : String) : JsNum :=
  let (sgn, l) := splitSign s.toList
  let (ds, rest) := l.span Char.isDigit
  let fs := match rest with
    | '.' :: r => (r.span Char.isDigit).1
    | _ => []
  if ds.isEmpty && fs.isEmpty then none
  else some ((sgn : ℚ) * ((decValue ds : ℚ) + (decValue fs : ℚ) / (10 ^ fs.length)))

/-- JS `parseFloat(v) || 0`: `NaN` (and `0` itself) collapse to `0`. -/
def orZeroF : JsNum → ℚ
  | none => 0
  | some q => q

/-- JS `parseInt(v) || 0`: `NaN` (and `0` itself) collapse to `0`. -/
def orZeroI : JsInt → ℤ
  | none => 0
  | some n => n

/-- Create-path float coercion `parseFloat(v) || 0` where an absent field
behaves as `parseFloat(undefined) = NaN`, hence `0`. -/
def coerceFloatOpt : Option String → ℚ
  | none => 0
  | some s => orZeroF (jsParseFloat s)

/-- Create-path int coercion `parseInt(v) || 0` where an absent field
behaves as `parseInt(undefined) = NaN`, hence `0`. -/
def coerceIntOpt : Option String → ℤ
  | none => 0
  | some s => orZeroI (jsParseInt s)

/-- One pattern character against one subject character, case-insensitive
`i` flag: `.` matches anything, other characters match as literals. -/
def charMatch (p c : Char) : Bool :=
  p == '.' || p.toLower == c.toLower

/-- The whole pattern matches a prefix of the subject. -/
def matchHere : List Char → List Char → Bool
  | [], _ => true
  | _ :: _, [] => false
  | p :: ps, c :: cs => charMatch p c && matchHere ps cs

/-- Unanchored regex search: the pattern matches at some position. -/
def regexSearch (ps : List Char) : List Char → Bool
  | [] => matchHere ps []
  | c :: cs => matchHere ps (c :: cs) || regexSearch ps cs

/-- Models `new RegExp(pat, 'i').test(s)` for patterns whose only
metacharacter is `.` (materials.js lines 49-54 build the filter regexes
directly from the query strings). -/
def regexTestCI (pat s : String) : Bool :=
  regexSearch pat.toList s.toList

/-- One steel-material record (src/models/SteelMaterial schema plus the
store-assigned `_id`, here `id`). -/
structure Record where
  id : String
  spec : String
  wpm : JsNum
  product : String
  method_calc : JsInt
  initial_length : JsNum
  trade_unit : JsInt
  cat_product : JsInt
deriving DecidableEq, Repr

/-- Association list modelling a JS `Map` from strings to records. -/
abbrev RecMap := List (String × Record)

/-- JS `Map.get`: value of the (unique) entry for the key. -/
def mapGet (m : RecMap) (k : String) : Option Record :=
  match m with
  | [] => none
  | (k', v) :: rest => if k' == k then some v else mapGet rest k

/-- JS `Map.set`: replace the entry in place if the key is present,
otherwise append a new entry. -/
def mapSet (m : RecMap) (k : String) (v : Record) : RecMap :=
  match m with
  | [] => [(k, v)]
  | (k', v') :: rest => if k' == k then (k, v) :: rest else (k', v') :: mapSet rest k v

/-- JS `Map.delete`: remove the (unique) entry for the key. -/
def mapDelete (m : RecMap) (k : String) : RecMap :=
  match m with
  | [] => []
  | (k', v') :: rest => if k' == k then rest else (k', v') :: mapDelete rest k

/-- The module-level `materialsCache` object (materials.js lines 8-14). -/
structure Cache where
  data : List Record
  bySpec : RecMap
  byId : RecMap
  lastSync : Option ℕ
  isLoaded : Bool
deriving DecidableEq, Repr

/-- The persistent store contents (the `steel_materials` collection). -/
abbrev Store := List Record

/-- The `/^[0-9a-fA-F]\x7b24\x7d$/` shape test used to decide whether a
route key is an ObjectId or a spec (materials.js lines 244, 259, 291,
356, 423). -/
def isObjectIdShaped (s : String) : Bool :=
  s.length == 24 && s.toList.all fun c =>
    c.isDigit || ('a' ≤ c && c ≤ 'f') || ('A' ≤ c && c ≤ 'F')

/-- Resolve a route key against the store: `findById` when the key is
ObjectId-shaped, else `findOne(\x7bspec\x7d)`. -/
def resolve (store : Store) (key : String) : Option Record :=
  if isObjectIdShaped key then store.find? (fun r => r.id == key)
  else store.find? (fun r => r.spec == key)

/-- The search query carried by `GET /` (materials.js lines 157-166);
all four filter fields arrive as raw query strings. -/
structure SearchQuery where
  spec : Option String
  product : Option String
  method_calc : Option String
  cat_product : Option String
deriving DecidableEq, Repr

/-- The filter stage of `searchInCache` (materials.js lines 47-61):
sequential `Array.filter` passes.  `spec`/`product` are guarded by JS
truthiness (absent or empty string means no constraint) and tested with
a case-insensitive regex; `method_calc`/`cat_product` are guarded by
`!== undefined` and compared with `===` against `parseInt` of the raw
string. -/
def filterStage (q : SearchQuery) (l : List Record) : List Record :=
  let r1 := match q.spec with
    | some s => if s.isEmpty then l else l.filter fun m => regexTestCI s m.spec
    | none => l
  let r2 := match q.product with
    | some s => if s.isEmpty then r1 else r1.filter fun m => regexTestCI s m.product
    | none => r1
  let r3 := match q.method_calc with
    | some s => r2.filter fun m => jsIntEq m.method_calc (jsParseInt s)
    | none => r2
  match q.cat_product with
  | some s => r3.filter fun m => jsIntEq m.cat_product (jsParseInt s)
  | none => r3

/-- A sortable field name (the `sort` query parameter naming a record
field; materials.js line 66 reads `a[sort]`). -/
inductive SortField where
  | fid
  | fspec
  | fwpm
  | fproduct
  | fmethod_calc
  | finitial_length
  | ftrade_unit
  | fcat_product
deriving DecidableEq, Repr

/-- A dynamic field value as seen by the sort comparator. -/
inductive FieldVal where
  | str (s : String)
  | num (q : JsNum)
deriving DecidableEq, Repr

/-- The value `r[f]` used by the comparator. -/
def sortKeyOf (f : SortField) (r : Record) : FieldVal :=
  match f with
  | .fid => .str r.id
  | .fspec => .str r.spec
  | .fwpm => .num r.wpm
  | .fproduct => .str r.product
  | .fmethod_calc => .num (r.method_calc.map fun n => (n : ℚ))
  | .finitial_length => .num r.initial_length
  | .ftrade_unit => .num (r.trade_unit.map fun n => (n : ℚ))
  | .fcat_product => .num (r.cat_product.map fun n => (n : ℚ))

/-- JS `<` on strings: lexicographic comparison of the code-unit
sequences (code points coincide with UTF-16 units on the basic plane). -/
def listLt : List Char → List Char → Bool
  | [], [] => false
  | [], _ :: _ => true
  | _ :: _, [] => false
  | a :: as, b :: bs =>
    if a.toNat < b.toNat then true
    else if b.toNat < a.toNat then false
    else listLt as bs

/-- JS `<` on two field values of the same field: lexicographic for
strings, numeric for numbers; any comparison involving `NaN` is false. -/
def fvLt : FieldVal → FieldVal → Bool
  | .str a, .str b => listLt a.toList b.toList
  | .num (some a), .num (some b) => decide (a < b)
  | _, _ => false

/-- `comparator(a, b) < 0` for the comparator of materials.js lines
64-71: strictly-less on the sort key, with the direction reversed when
`order === 'desc'`. -/
def recLt (f : SortField) (ord : String) (a b : Record) : Bool :=
  if ord == "desc" then fvLt (sortKeyOf f b) (sortKeyOf f a)
  else fvLt (sortKeyOf f a) (sortKeyOf f b)

/-- Insert `a` after every element not strictly greater than it. -/
def insertBy {α : Type} (lt : α → α → Bool) (a : α) : List α → List α
  | [] => [a]
  | b :: bs => if lt a b then a :: b :: bs else b :: insertBy lt a bs

/-- Left-to-right insertion sort: a stable sort.  Models
`results.sort(comparator)` (materials.js lines 64-71): JS `Array.sort`
is specified to be stable, and for a consistent comparator every stable
sort produces this list. -/
def stableSortBy {α : Type} (lt : α → α → Bool) (l : List α) : List α :=
  l.foldl (fun acc a => insertBy lt a acc) []

/-- The sort stage of `searchInCache`. -/
def sortStage (f : SortField) (ord : String) (l : List Record) : List Record :=
  stableSortBy (recLt f ord) l

/-- The value returned by `searchInCache` (materials.js lines 77-95). -/
structure SearchResult where
  data : List Record
  total : ℕ
  page : ℕ
  limit : ℕ
  pages : ℕ
deriving DecidableEq, Repr

/-- `searchInCache(query, page, limit, sort, order)` (materials.js lines
44-96): copy of the snapshot, filter, stable sort, then pagination; a
`limit` of at least 999999 is the "no pagination" sentinel.  `page` is
modelled as a natural number, covering the JS behaviour for `page ≥ 1`. -/
def searchInCache (cache : Cache) (q : SearchQuery) (page : ℕ) (limit : ℕ)
    (f : SortField) (ord : String) : SearchResult :=
  let results := sortStage f ord (filterStage q cache.data)
  let total := results.length
  if 999999 ≤ limit then
    { data := results, total := total, page := 1, limit := total, pages := 1 }
  else
    let skip := (page - 1) * limit
    { data := (results.drop skip).take limit, total := total, page := page,
      limit := limit, pages := (total + limit - 1) / limit }

/-- Outcome of a single-record write route. -/
inductive WriteResult where
  | ok (r : Record)
  | errRequired
  | errDup
  | errNotFound
  | errStore
deriving DecidableEq, Repr

/-- Outcome of the bulk-delete route. -/
inductive BulkResult where
  | ok (deletedCount : ℕ)
  | errInvalid
  | errStore
deriving DecidableEq, Repr

/-- The request body of `POST /` (materials.js line 101); every field
arrives as a raw JSON value, modelled by its decimal string. -/
structure CreateBody where
  spec : Option String
  wpm : Option String
  product : Option String
  method_calc : Option String
  initial_length : Option String
  trade_unit : Option String
  cat_product : Option String
deriving DecidableEq, Repr

/-- `router.post('/')` (materials.js lines 99-151): required-field
check, duplicate-spec check against the store, coercion with zero
defaults, `save()` (which may fail: `fail = true`), then the cache push
when loaded.  `newId` is the ObjectId assigned to the new document. -/
def postHandler (store : Store) (cache : Cache) (body : CreateBody) (newId : String)
    (fail : Bool) : WriteResult × Store × Cache :=
  match body.spec, body.wpm with
  | none, _ => (.errRequired, store, cache)
  | some _, none => (.errRequired, store, cache)
  | some s, some w =>
    if s.isEmpty then (.errRequired, store, cache)
    else if (store.find? fun r => r.spec == s).isSome then (.errDup, store, cache)
    else
      let m : Record :=
        { id := newId, spec := s,
          wpm := some (orZeroF (jsParseFloat w)),
          product := body.product.getD "",
          method_calc := some (coerceIntOpt body.method_calc),
          initial_length := some (coerceFloatOpt body.initial_length),
          trade_unit := some (coerceIntOpt body.trade_unit),
          cat_product := some (coerceIntOpt body.cat_product) }
      if fail then (.errStore, store, cache)
      else
        let cache' :=
          if cache.isLoaded then
            { cache with data := cache.data ++ [m],
                         bySpec := mapSet cache.bySpec m.spec m,
                         byId := mapSet cache.byId m.id m }
          else cache
        (.ok m, store ++ [m], cache')

/-- The request body of `PUT /:id` / `PATCH /:id` before coercion. -/
structure UpdateBody where
  spec : Option String
  wpm : Option String
  product : Option String
  method_calc : Option String
  initial_length : Option String
  trade_unit : Option String
  cat_product : Option String
deriving DecidableEq, Repr

/-- An update body after the numeric coercion step. -/
structure CoercedUpdate where
  spec : Option String
  wpm : Option JsNum
  product : Option String
  method_calc : Option JsInt
  initial_length : Option JsNum
  trade_unit : Option JsInt
  cat_product : Option JsInt
deriving DecidableEq, Repr

/-- The numeric coercion of the update paths (materials.js lines
303-308 for PUT and, verbatim the same, lines 368-373 for PATCH): bare
`parseFloat`/`parseInt` on each supplied numeric field, with no zero
default. -/
def convertUpdateNumerics (u : UpdateBody) : CoercedUpdate :=
  { spec := u.spec,
    wpm := u.wpm.map jsParseFloat,
    product := u.product,
    method_calc := u.method_calc.map jsParseInt,
    initial_length := u.initial_length.map jsParseFloat,
    trade_unit := u.trade_unit.map jsParseInt,
    cat_product := u.cat_product.map jsParseInt }

/-- `Object.assign(material, updateData)` (and the equivalent
key-by-key loop of PATCH): replace exactly the supplied fields. -/
def applyUpd (r : Record) (u : CoercedUpdate) : Record :=
  { r with spec := u.spec.getD r.spec,
           wpm := u.wpm.getD r.wpm,
           product := u.product.getD r.product,
           method_calc := u.method_calc.getD r.method_calc,
           initial_length := u.initial_length.getD r.initial_length,
           trade_unit := u.trade_unit.getD r.trade_unit,
           cat_product := u.cat_product.getD r.cat_product }

/-- The snapshot-array update of the update paths (materials.js lines
325-330): locate the record by id with `findIndex` and overwrite it,
appending when absent. -/
def replaceInData (l : List Record) (tid : String) (t' : Record) : List Record :=
  match l.findIdx? (fun m => m.id == tid) with
  | some i => l.set i t'
  | none => l ++ [t']

/-- `router.put('/:id')` (materials.js lines 285-347) and
`router.patch('/:id')` (lines 350-415), whose resolve / coerce / save /
cache-update logic is line-for-line identical: resolve the target from
the store by id-or-spec shape, coerce and apply the changes, `save()`
(may fail), then update all three cache structures, deleting the old
`bySpec` entry when the spec changed (guarded by JS truthiness of the
old spec). -/
def updateHandler (store : Store) (cache : Cache) (key : String) (body : UpdateBody)
    (fail : Bool) : WriteResult × Store × Cache :=
  match resolve store key with
  | none => (.errNotFound, store, cache)
  | some t =>
    let t' := applyUpd t (convertUpdateNumerics body)
    if fail then (.errStore, store, cache)
    else
      let store' := store.map fun r => if r.id == t.id then t' else r
      let cache' :=
        if cache.isLoaded then
          let oldSpec := (mapGet cache.byId t'.id).map (·.spec)
          let bs1 := match oldSpec with
            | some os => if os != "" && os != t'.spec then mapDelete cache.bySpec os
                         else cache.bySpec
            | none => cache.bySpec
          { cache with data := replaceInData cache.data t'.id t',
                       bySpec := mapSet bs1 t'.spec t',
                       byId := mapSet cache.byId t'.id t' }
        else cache
      (.ok t', store', cache')

/-- `router.delete('/:id')` (materials.js lines 418-454):
`findByIdAndDelete` / `findOneAndDelete` by key shape (may fail), then
removal from all three cache structures. -/
def deleteHandler (store : Store) (cache : Cache) (key : String) (fail : Bool) :
    WriteResult × Store × Cache :=
  match resolve store key with
  | none => (.errNotFound, store, cache)
  | some t =>
    if fail then (.errStore, store, cache)
    else
      let store' :=
        if isObjectIdShaped key then store.eraseP (fun r => r.id == key)
        else store.eraseP (fun r => r.spec == key)
      let cache' :=
        if cache.isLoaded then
          { cache with bySpec := mapDelete cache.bySpec t.spec,
                       byId := mapDelete cache.byId t.id,
                       data := cache.data.filter fun m => m.id != t.id }
        else cache
      (.ok t, store', cache')

/-- JS truthiness of `xs && xs.length > 0` for an optional array. -/
def optNonempty : Option (List String) → Bool
  | some l => !l.isEmpty
  | none => false

/-- `router.delete('/')` (materials.js lines 457-520): reject only when
both `ids` and `specs` are absent; build the `deleteMany` filter from
the first non-empty set, which is the match-everything filter when both
supplied sets are empty; delete from the store (may fail), then prune
the cache maps by the identifier set and filter the snapshot array. -/
def deleteManyHandler (store : Store) (cache : Cache)
    (ids specs : Option (List String)) (fail : Bool) : BulkResult × Store × Cache :=
  match ids, specs with
  | none, none => (.errInvalid, store, cache)
  | _, _ =>
    if fail then (.errStore, store, cache)
    else
      let pred : Record → Bool :=
        if optNonempty ids then fun r => (ids.getD []).contains r.id
        else if optNonempty specs then fun r => (specs.getD []).contains r.spec
        else fun _ => true
      let store' := store.filter fun r => !(pred r)
      let count := store.length - store'.length
      let cache' :=
        if cache.isLoaded && decide (0 < count) then
          let c1 :=
            if optNonempty ids then
              (ids.getD []).foldl (fun c i =>
                match mapGet c.byId i with
                | some m => { c with bySpec := mapDelete c.bySpec m.spec,
                                     byId := mapDelete c.byId i }
                | none => c) cache
            else if optNonempty specs then
              (specs.getD []).foldl (fun c sp =>
                match mapGet c.bySpec sp with
                | some m => { c with byId := mapDelete c.byId m.id,
                                     bySpec := mapDelete c.bySpec sp }
                | none => c) cache
            else cache
          let keep : Record → Bool := fun m =>
            if optNonempty ids then !(ids.getD []).contains m.id
            else if optNonempty specs then !(specs.getD []).contains m.spec
            else true
          { c1 with data := c1.data.filter keep }
        else cache
      (.ok count, store', cache')

/-- `loadCacheFromDB` (materials.js lines 17-41): on a successful scan,
replace the snapshot and rebuild both maps, stamp `lastSync`, set
`isLoaded`; on a scan failure (`.error`), leave the structures as they
were but set `isLoaded := false` and return `false`. -/
def loadCacheFromDB (cache : Cache) (scan : Except Unit (List Record)) (now : ℕ) :
    Bool × Cache :=
  match scan with
  | .error _ => (false, { cache with isLoaded := false })
  | .ok ms =>
    (true,
      { data := ms,
        bySpec := ms.foldl (fun m r => mapSet m r.spec r) [],
        byId := ms.foldl (fun m r => mapSet m r.id r) [],
        lastSync := some now,
        isLoaded := true })

/-- Outcome of `GET /:id`, recording whether the cache served it. -/
inductive GetResult where
  | foundCache (r : Record)
  | foundStore (r : Record)
  | notFound
deriving DecidableEq, Repr

/-- `router.get('/:id')` (materials.js lines 238-282): when loaded,
probe `byId` for an ObjectId-shaped key and `bySpec` otherwise; on a
miss (or when unloaded) fall through to the store lookup of the same
shape; 404 when both miss. -/
def getHandler (store : Store) (cache : Cache) (key : String) : GetResult :=
  let cacheHit :=
    if cache.isLoaded then
      if isObjectIdShaped key then mapGet cache.byId key else mapGet cache.bySpec key
    else none
  match cacheHit with
  | some m => .foundCache m
  | none =>
    match resolve store key with
    | some m => .foundStore m
    | none => .notFound

/-- A single mutation of claim C1's operation language: create, update
(PUT and PATCH share `updateHandler`), or single delete. -/
inductive Op where
  | create (body : CreateBody) (newId : String)
  | update (key : String) (body : UpdateBody)
  | deleteOne (key : String)
deriving DecidableEq, Repr

/-- Store plus cache, the state mutated by the write routes. -/
structure SysState where
  store : Store
  cache : Cache
deriving DecidableEq, Repr

/-- Apply one successful-store operation to store and cache. -/
def applyOp (st : SysState) : Op → SysState
  | .create b i => let o := postHandler st.store st.cache b i false; ⟨o.2.1, o.2.2⟩
  | .update k b => let o := updateHandler st.store st.cache k b false; ⟨o.2.1, o.2.2⟩
  | .deleteOne k => let o := deleteHandler st.store st.cache k false; ⟨o.2.1, o.2.2⟩

/-- Apply a sequence of operations left to right. -/
def applyOps (st : SysState) (ops : List Op) : SysState :=
  ops.foldl applyOp st

/-- Invariant I1 of the spec: the snapshot array and both maps hold
exactly the same records, with the maps answering lookups with the
identical copy. -/
def Coherent (c : Cache) : Prop :=
  (∀ r ∈ c.data, mapGet c.bySpec r.spec = some r ∧ mapGet c.byId r.id = some r) ∧
  (∀ p ∈ c.bySpec, p.2 ∈ c.data) ∧
  (∀ p ∈ c.byId, p.2 ∈ c.data)

instance (c : Cache) : Decidable (Coherent c) :=
  inferInstanceAs (Decidable (_ ∧ _ ∧ _))

/-- The inductive invariant relating a loaded cache to the store it
mirrors: same snapshot, unique nonempty specs, unique ids, and both
maps are (as multisets of entries) exactly the store keyed by spec
resp. id. -/
def GoodState (st : SysState) : Prop :=
  st.cache.isLoaded = true ∧
  st.cache.data = st.store ∧
  (st.store.map Record.spec).Nodup ∧
  (st.store.map Record.id).Nodup ∧
  (∀ r ∈ st.store, r.spec ≠ "") ∧
  st.cache.bySpec.Perm (st.store.map fun r => (r.spec, r)) ∧
  st.cache.byId.Perm (st.store.map fun r => (r.id, r))

/-- Side conditions on one operation: fresh id on create; an update that
changes a spec must pick a nonempty spec not held by any other record. -/
def OpOK (st : SysState) : Op → Prop
  | .create _ newId => ∀ r ∈ st.store, r.id ≠ newId
  | .update key b =>
    match resolve st.store key, b.spec with
    | some t, some s => s ≠ "" ∧ ∀ r ∈ st.store, r.id ≠ t.id → r.spec ≠ s
    | _, _ => True
  | .deleteOne _ => True

/-- Every operation of the sequence satisfies its side condition in the
state where it runs. -/
def OpsOK (st : SysState) : List Op → Prop
  | [] => True
  | op :: rest => OpOK st op ∧ OpsOK (applyOp st op) rest

/-- Spec rendering of a case-insensitive substring occurrence, used to
compare the filter stage against the spec's words ("case-insensitive
substring matches"). -/
def substrCI (pat s : String) : Prop :=
  pat.toList.map Char.toLower <:+: s.toList.map Char.toLower

/-- Executable mirror of `<:+:` on character lists. -/
def infixCheck (l1 : List Char) : List Char → Bool
  | [] => l1.isPrefixOf []
  | b :: l2 => l1.isPrefixOf (b :: l2) || infixCheck l1 l2

/-- Fixture: an empty but loaded cache (the state right after a full
load of an empty store). -/
def emptyLoaded : Cache := ⟨[], [], [], some 0, true⟩

/-- Fixture: the query exercising all filter kinds against `recAbc`. -/
def qAbcQ : SearchQuery := ⟨some "AB", none, some "0", none⟩

/-- Fixture: the empty query (no filters). -/
def qNone : SearchQuery := ⟨none, none, none, none⟩

/-- Fixture: a well-formed record with spec `sA`. -/
def recA : Record :=
  ⟨"id000000000000000000000a", "sA", some 1, "plate", some 1, some 0, some 0, some 0⟩

/-- Fixture: a well-formed record with spec `sB`. -/
def recB : Record :=
  ⟨"id000000000000000000000b", "sB", some 2, "coil", some 2, some 0, some 0, some 0⟩

/-- Fixture: a two-record store. -/
def storeAB : Store := [recA, recB]

/-- Fixture: the loaded cache mirroring `storeAB`. -/
def cacheAB : Cache :=
  ⟨[recA, recB], [("sA", recA), ("sB", recB)],
   [("id000000000000000000000a", recA), ("id000000000000000000000b", recB)],
   some 0, true⟩

/-- Fixture: a loaded cache containing `recA` while the store is empty
(the store was mutated behind the cache's back). -/
def cacheStaleA : Cache :=
  ⟨[recA], [("sA", recA)], [("id000000000000000000000a", recA)], some 0, true⟩

/-- Fixture: an update body whose `wpm` is unparseable. -/
def ubAbc : UpdateBody := ⟨none, some "abc", none, none, none, none, none⟩

/-- Fixture: an update body whose five numeric fields are all
unparseable. -/
def ubAllBad : UpdateBody :=
  ⟨none, some "abc", none, some "abc", some "abc", some "abc", some "abc"⟩

/-- Fixture: the record produced by applying `ubAbc` to `recA`. -/
def recANaN : Record := applyUpd recA (convertUpdateNumerics ubAbc)

/-- Fixture: a create body reusing the existing spec `sA`. -/
def bodyDupA : CreateBody := ⟨some "sA", some "3", none, none, none, none, none⟩

/-- Fixture: a create body with a fresh spec. -/
def bodyNew : CreateBody := ⟨some "sNew", some "1", none, none, none, none, none⟩

/-- Fixture: a 24-hex-character key. -/
def keyHexW : String := "aaaaaaaaaaaaaaaaaaaaaaaa"

/-- Fixture: a record whose spec is itself 24 hex characters. -/
def recHexW : Record :=
  ⟨"bbbbbbbbbbbbbbbbbbbbbbbb", keyHexW, some 1, "", some 0, some 0, some 0, some 0⟩

/-- Fixture: store holding `recHexW`. -/
def storeHexW : Store := [recHexW]

/-- Fixture: loaded cache mirroring `storeHexW`. -/
def cacheHexW : Cache :=
  ⟨[recHexW], [(keyHexW, recHexW)], [("bbbbbbbbbbbbbbbbbbbbbbbb", recHexW)], none, true⟩

/-- Fixture: the spec-collision update of claim C1: rename `recA`'s spec
to the spec already held by `recB`. -/
def opCollide : Op :=
  .update "sA" ⟨some "sB", none, none, none, none, none, none⟩

/-- Fixture: the search query whose spec filter is the pattern `a.c`. -/
def qDot : SearchQuery := ⟨some "a.c", none, none, none⟩

/-- Fixture: a record whose spec is `abc`. -/
def recAbc : Record := ⟨"x1", "abc", some 1, "", some 0, some 0, some 0, some 0⟩

/-- Fixture: loaded cache holding only `recAbc`. -/
def cacheAbc : Cache := ⟨[recAbc], [("abc", recAbc)], [("x1", recAbc)], none, true⟩

/- ------------------------------------------------------------------ -/
/- Substring and regex lemmas.                                        -/
/- ------------------------------------------------------------------ -/

theorem infixCheck_iff (l1 l2 : List Char) : infixCheck l1 l2 = true ↔ l1 <:+: l2 := by
  induction l2 with
  | nil =>
    simp [infixCheck, List.isPrefixOf_iff_prefix, List.prefix_nil]
  | cons b l2 ih =>
    simp only [infixCheck, Bool.or_eq_true, List.isPrefixOf_iff_prefix, ih,
      List.infix_cons_iff]

theorem matchHere_iff_prefix (ps cs : List Char) (h : '.' ∉ ps) :
    matchHere ps cs = true ↔ ps.map Char.toLower <+: cs.map Char.toLower := by
  induction ps generalizing cs with
  | nil => simp [matchHere, List.nil_prefix]
  | cons p ps ih =>
    have hp : p ≠ '.' := fun hc => h (hc ▸ List.mem_cons_self p ps)
    have hps : '.' ∉ ps := fun hc => h (List.mem_cons_of_mem p hc)
    cases cs with
    | nil => simp [matchHere, List.prefix_nil]
    | cons c cs =>
      have hcm : charMatch p c = (p.toLower == c.toLower) := by
        simp [charMatch, hp]
      simp [matchHere, hcm, List.cons_prefix_cons, ih cs hps, Bool.and_eq_true,
        beq_iff_eq, and_comm]

theorem regexSearch_iff_infix (ps cs : List Char) (h : '.' ∉ ps) :
    regexSearch ps cs = true ↔ ps.map Char.toLower <:+: cs.map Char.toLower := by
  induction cs with
  | nil =>
    rw [regexSearch, matchHere_iff_prefix ps [] h]
    simp [List.prefix_nil, List.infix_nil]
  | cons c cs ih =>
    rw [regexSearch, Bool.or_eq_true, matchHere_iff_prefix ps (c :: cs) h, ih]
    simp [List.infix_cons_iff]

/- ------------------------------------------------------------------ -/
/- Claim C3: reload failure on an already-loaded cache.               -/
/- ------------------------------------------------------------------ -/

/-- C3: the claim states that a failed reload leaves an already-loaded
cache in the loaded state.  Counterexample: `cacheAB` is loaded, yet
after a failed scan `isLoaded` is `false` — the catch branch of
`loadCacheFromDB` sets it unconditionally. -/
theorem C3_counterexample :
    cacheAB.isLoaded = true ∧
    (loadCacheFromDB cacheAB (.error ()) 5).2.isLoaded = false :=
  ⟨rfl, rfl⟩

/-- C3 (amended): a reload whose store scan fails returns `false` and
retains the previous snapshot, both maps and `last_sync`, but always
sets `loaded := false`, even when a load had previously succeeded. -/
theorem C3_theorem (cache : Cache) (now : ℕ) :
    (loadCacheFromDB cache (.error ()) now).1 = false ∧
    (loadCacheFromDB cache (.error ()) now).2.data = cache.data ∧
    (loadCacheFromDB cache (.error ()) now).2.bySpec = cache.bySpec ∧
    (loadCacheFromDB cache (.error ()) now).2.byId = cache.byId ∧
    (loadCacheFromDB cache (.error ()) now).2.lastSync = cache.lastSync ∧
    (loadCacheFromDB cache (.error ()) now).2.isLoaded = false :=
  ⟨rfl, rfl, rfl, rfl, rfl, rfl⟩

/- ------------------------------------------------------------------ -/
/- Claim C8: numeric coercion on the update paths.                    -/
/- ------------------------------------------------------------------ -/

/-- C8: the claim states that an unparseable numeric value in an update
is persisted as the field's zero default.  Counterexample: updating
`recA` with `wpm := "abc"` persists `NaN` (modelled `none`), not `0` —
the update coercion has no `|| 0` fallback. -/
theorem C8_counterexample :
    (updateHandler storeAB cacheAB "sA" ubAbc false).1 = .ok recANaN ∧
    (updateHandler storeAB cacheAB "sA" ubAbc false).2.1 = [recANaN, recB] ∧
    recANaN.wpm = none ∧ recANaN.wpm ≠ some 0 := by
  refine ⟨?_, ?_, rfl, by decide⟩ <;> decide

theorem mapGet_mapSet_self (m : RecMap) (k : String) (v : Record) :
    mapGet (mapSet m k v) k = some v := by
  induction m with
  | nil => simp [mapSet, mapGet]
  | cons p rest ih =>
    obtain ⟨k', v'⟩ := p
    by_cases h : k' = k
    · rw [mapSet, if_pos (by simpa using h), mapGet, if_pos (by simp)]
    · rw [mapSet, if_neg (by simpa using h), mapGet, if_neg (by simpa using h)]
      exact ih

/-- C8 (amended): the update paths coerce every numeric field — `wpm`
and `initial_length` with bare `parseFloat`, `method_calc`,
`trade_unit` and `cat_product` with bare `parseInt` — and have no zero
default: for each of the five fields an unparseable value becomes `NaN`
in the coerced update and in the updated record, which is exactly what
the update returns, persists to the store, and applies to the cache's
indexes; the zero-default fallback (`parseFloat(v) || 0`,
`parseInt(v) || 0`) exists only on the create path. -/
theorem C8_theorem (store : Store) (cache : Cache) (key : String) (u : UpdateBody)
    (t : Record) (hres : resolve store key = some t) :
    (∀ s, u.wpm = some s → jsParseFloat s = none →
      (convertUpdateNumerics u).wpm = some none ∧
      (applyUpd t (convertUpdateNumerics u)).wpm = none) ∧
    (∀ s, u.initial_length = some s → jsParseFloat s = none →
      (convertUpdateNumerics u).initial_length = some none ∧
      (applyUpd t (convertUpdateNumerics u)).initial_length = none) ∧
    (∀ s, u.method_calc = some s → jsParseInt s = none →
      (convertUpdateNumerics u).method_calc = some none ∧
      (applyUpd t (convertUpdateNumerics u)).method_calc = none) ∧
    (∀ s, u.trade_unit = some s → jsParseInt s = none →
      (convertUpdateNumerics u).trade_unit = some none ∧
      (applyUpd t (convertUpdateNumerics u)).trade_unit = none) ∧
    (∀ s, u.cat_product = some s → jsParseInt s = none →
      (convertUpdateNumerics u).cat_product = some none ∧
      (applyUpd t (convertUpdateNumerics u)).cat_product = none) ∧
    (updateHandler store cache key u false).1 = .ok (applyUpd t (convertUpdateNumerics u)) ∧
    applyUpd t (convertUpdateNumerics u) ∈ (updateHandler store cache key u false).2.1 ∧
    (cache.isLoaded = true →
      mapGet (updateHandler store cache key u false).2.2.byId
          (applyUpd t (convertUpdateNumerics u)).id =
        some (applyUpd t (convertUpdateNumerics u))) ∧
    (∀ s, jsParseFloat s = none → coerceFloatOpt (some s) = 0) ∧
    (∀ s, jsParseInt s = none → coerceIntOpt (some s) = 0) := by
  have htmem : t ∈ store := by
    unfold resolve at hres
    by_cases hsh : isObjectIdShaped key = true
    · rw [if_pos hsh] at hres
      exact List.mem_of_find?_eq_some hres
    · rw [if_neg hsh] at hres
      exact List.mem_of_find?_eq_some hres
  have hstore1 : (updateHandler store cache key u false).2.1 =
      store.map (fun r => if r.id == t.id then applyUpd t (convertUpdateNumerics u) else r) := by
    simp [updateHandler, hres]
  refine ⟨?_, ?_, ?_, ?_, ?_, ?_, ?_, ?_, ?_, ?_⟩
  · intro s hs hbad
    exact ⟨by simp [convertUpdateNumerics, hs, hbad],
           by simp [applyUpd, convertUpdateNumerics, hs, hbad]⟩
  · intro s hs hbad
    exact ⟨by simp [convertUpdateNumerics, hs, hbad],
           by simp [applyUpd, convertUpdateNumerics, hs, hbad]⟩
  · intro s hs hbad
    exact ⟨by simp [convertUpdateNumerics, hs, hbad],
           by simp [applyUpd, convertUpdateNumerics, hs, hbad]⟩
  · intro s hs hbad
    exact ⟨by simp [convertUpdateNumerics, hs, hbad],
           by simp [applyUpd, convertUpdateNumerics, hs, hbad]⟩
  · intro s hs hbad
    exact ⟨by simp [convertUpdateNumerics, hs, hbad],
           by simp [applyUpd, convertUpdateNumerics, hs, hbad]⟩
  · simp [updateHandler, hres]
  · rw [hstore1]
    exact List.mem_map.mpr ⟨t, htmem, by simp⟩
  · intro hl
    rcases hold : mapGet cache.byId (applyUpd t (convertUpdateNumerics u)).id with _ | m
    · simp only [updateHandler, hres, hl, hold, if_true, ite_true, Option.map_none',
        Bool.false_eq_true, ite_false]
      exact mapGet_mapSet_self _ _ _
    · simp only [updateHandler, hres, hl, hold, if_true, ite_true, Option.map_some',
        Bool.false_eq_true, ite_false]
      exact mapGet_mapSet_self _ _ _
  · intro s hbad
    simp [coerceFloatOpt, hbad, orZeroF]
  · intro s hbad
    simp [coerceIntOpt, hbad, orZeroI]

/-- C8 witness: the amended statement at a concrete target and an
update body whose five numeric fields are all unparseable. -/
theorem C8_witness :
    ((convertUpdateNumerics ubAllBad).wpm = some none ∧
     (applyUpd recA (convertUpdateNumerics ubAllBad)).wpm = none) ∧
    ((convertUpdateNumerics ubAllBad).initial_length = some none ∧
     (applyUpd recA (convertUpdateNumerics ubAllBad)).initial_length = none) ∧
    ((convertUpdateNumerics ubAllBad).method_calc = some none ∧
     (applyUpd recA (convertUpdateNumerics ubAllBad)).method_calc = none) ∧
    ((convertUpdateNumerics ubAllBad).trade_unit = some none ∧
     (applyUpd recA (convertUpdateNumerics ubAllBad)).trade_unit = none) ∧
    ((convertUpdateNumerics ubAllBad).cat_product = some none ∧
     (applyUpd recA (convertUpdateNumerics ubAllBad)).cat_product = none) ∧
    (updateHandler storeAB cacheAB "sA" ubAllBad false).1 =
      .ok (applyUpd recA (convertUpdateNumerics ubAllBad)) ∧
    applyUpd recA (convertUpdateNumerics ubAllBad) ∈
      (updateHandler storeAB cacheAB "sA" ubAllBad false).2.1 ∧
    mapGet (updateHandler storeAB cacheAB "sA" ubAllBad false).2.2.byId
        (applyUpd recA (convertUpdateNumerics ubAllBad)).id =
      some (applyUpd recA (convertUpdateNumerics ubAllBad)) ∧
    coerceFloatOpt (some "abc") = 0 ∧
    coerceIntOpt (some "abc") = 0 := by
  have h := C8_theorem storeAB cacheAB "sA" ubAllBad recA (by decide)
  exact ⟨h.1 "abc" rfl (by decide), h.2.1 "abc" rfl (by decide),
         h.2.2.1 "abc" rfl (by decide), h.2.2.2.1 "abc" rfl (by decide),
         h.2.2.2.2.1 "abc" rfl (by decide), h.2.2.2.2.2.1, h.2.2.2.2.2.2.1,
         h.2.2.2.2.2.2.2.1 rfl, h.2.2.2.2.2.2.2.2.1 "abc" (by decide),
         h.2.2.2.2.2.2.2.2.2 "abc" (by decide)⟩

/- ------------------------------------------------------------------ -/
/- Claim C2: bulk-delete argument validation.                         -/
/- ------------------------------------------------------------------ -/

/-- C2: the claim states that a bulk delete supplying an empty `ids`
array is rejected with `InvalidArgument` and deletes nothing.
Counterexample: with `ids = []` (and no `specs`) the request passes the
`!ids && !specs` guard, the delete filter stays empty, and every record
of the store is deleted while the call reports success. -/
theorem C2_counterexample :
    (deleteManyHandler storeAB cacheAB (some []) none false).1 = .ok 2 ∧
    (deleteManyHandler storeAB cacheAB (some []) none false).2.1 = [] ∧
    storeAB ≠ [] := by
  refine ⟨?_, ?_, ?_⟩ <;> decide

/-- C2 (amended): `delete_many` fails with `InvalidArgument` (deleting
nothing) exactly when both identifier sets are absent; an empty `ids`
array (with `specs` absent) is accepted and produces the unrestricted
filter, deleting every record from the store. -/
theorem C2_theorem (store : Store) (cache : Cache) (ids specs : Option (List String))
    (fail : Bool) :
    ((deleteManyHandler store cache ids specs fail).1 = .errInvalid ↔
      ids = none ∧ specs = none) ∧
    (ids = none → specs = none →
      deleteManyHandler store cache ids specs fail = (.errInvalid, store, cache)) ∧
    (ids = some [] → specs = none → fail = false →
      (deleteManyHandler store cache ids specs fail).2.1 = []) := by
  rcases ids with _ | l <;> rcases specs with _ | l' <;>
    cases fail <;>
      simp [deleteManyHandler, optNonempty, List.filter_eq_nil_iff] <;>
      (rintro rfl; simp)

/-- C2 witness: the amended statement at a fully absent request. -/
theorem C2_witness :
    deleteManyHandler storeAB cacheAB none none false = (.errInvalid, storeAB, cacheAB) :=
  (C2_theorem storeAB cacheAB none none false).2.1 rfl rfl

/- ------------------------------------------------------------------ -/
/- Claim C5: duplicate-spec check on create.                          -/
/- ------------------------------------------------------------------ -/

/-- C5: the claim states that when the cache is loaded, the duplicate
check is made against `by_spec`.  Counterexample: with the loaded cache
`cacheStaleA` whose `by_spec` holds `sA` while the store does not, a
create with spec `sA` succeeds and inserts into the store — the code
checks `SteelMaterial.findOne` (the store) regardless of `isLoaded`. -/
theorem C5_counterexample :
    cacheStaleA.isLoaded = true ∧
    mapGet cacheStaleA.bySpec "sA" = some recA ∧
    (postHandler [] cacheStaleA bodyDupA "n1" false).1 ≠ .errDup ∧
    (postHandler [] cacheStaleA bodyDupA "n1" false).2.1 ≠ [] := by
  refine ⟨rfl, ?_, ?_, ?_⟩ <;> decide

/-- C5 (amended): the duplicate check always queries the store, whether
or not the cache is loaded: a valid create fails with `DuplicateSpec`
exactly when the candidate spec exists in the store, and then both the
store and the cache are left unchanged; a spec present only in the
loaded cache's `by_spec` is not rejected. -/
theorem C5_theorem (store : Store) (cache : Cache) (b : CreateBody) (newId : String)
    (s w : String) (hs : b.spec = some s) (hne : s ≠ "") (hw : b.wpm = some w) :
    ((store.find? fun r => r.spec == s).isSome = true →
      postHandler store cache b newId false = (.errDup, store, cache)) ∧
    ((store.find? fun r => r.spec == s) = none →
      (postHandler store cache b newId false).1 ≠ .errDup) := by
  have hne' : s.isEmpty = false := by
    cases h : s.isEmpty
    · rfl
    · exact absurd ((String.isEmpty_iff s).mp h) hne
  constructor
  · intro hdup
    simp [postHandler, hs, hw, hne', hdup]
  · intro hnone
    simp [postHandler, hs, hw, hne', hnone]

/-- C5 witness: a duplicate create against `storeAB` is rejected with
the store and cache unchanged. -/
theorem C5_witness :
    postHandler storeAB cacheAB bodyDupA "n2" false = (.errDup, storeAB, cacheAB) :=
  (C5_theorem storeAB cacheAB bodyDupA "n2" "sA" "3" rfl (by decide) rfl).1 (by decide)

/- ------------------------------------------------------------------ -/
/- Claim C10: id-shape dispatch of the point lookup.                  -/
/- ------------------------------------------------------------------ -/

/-- C10: a key is treated as an id exactly when it is 24 hex characters,
and then the lookup probes only `by_id` and the store by id: if both
miss, the result is `NotFound` regardless of what `by_spec` holds. -/
theorem C10_theorem (store : Store) (cache : Cache) (key : String) :
    (isObjectIdShaped key = true ↔
      key.length = 24 ∧ ∀ c ∈ key.toList,
        (c.isDigit || ('a' ≤ c && c ≤ 'f') || ('A' ≤ c && c ≤ 'F')) = true) ∧
    (isObjectIdShaped key = true → mapGet cache.byId key = none →
      store.find? (fun r => r.id == key) = none →
      getHandler store cache key = .notFound) := by
  constructor
  · simp [isObjectIdShaped, List.all_eq_true]
  · intro hshape hcache hstore
    unfold getHandler resolve
    cases h : cache.isLoaded <;> simp [h, hshape, hcache, hstore]

/-- C10 witness: a record whose spec is 24 hex characters is invisible
to the point lookup under that spec — `by_spec` holds it, yet the
result is `NotFound`. -/
theorem C10_witness :
    mapGet cacheHexW.bySpec keyHexW = some recHexW ∧
    getHandler storeHexW cacheHexW keyHexW = .notFound :=
  ⟨by decide, (C10_theorem storeHexW cacheHexW keyHexW).2 (by decide) (by decide) (by decide)⟩

/- ------------------------------------------------------------------ -/
/- Claim C4: store failure leaves the cache untouched.                -/
/- ------------------------------------------------------------------ -/

/-- C4: for every write path, when the store write fails the error is
surfaced and the store and all three cache structures are exactly as
before the call — the cache mutation is sequenced strictly after the
successful store call, and no branch applies a partial update. -/
theorem C4_theorem (store : Store) (cache : Cache) (b : CreateBody) (newId key : String)
    (ub : UpdateBody) (ids specs : Option (List String)) :
    ((postHandler store cache b newId true).2 = (store, cache)) ∧
    (∀ s w, b.spec = some s → s ≠ "" → b.wpm = some w →
      (store.find? fun r => r.spec == s) = none →
      postHandler store cache b newId true = (.errStore, store, cache)) ∧
    ((updateHandler store cache key ub true).2 = (store, cache)) ∧
    ((resolve store key).isSome = true →
      updateHandler store cache key ub true = (.errStore, store, cache)) ∧
    ((deleteHandler store cache key true).2 = (store, cache)) ∧
    ((resolve store key).isSome = true →
      deleteHandler store cache key true = (.errStore, store, cache)) ∧
    ((deleteManyHandler store cache ids specs true).2 = (store, cache)) ∧
    ((ids ≠ none ∨ specs ≠ none) →
      deleteManyHandler store cache ids specs true = (.errStore, store, cache)) := by
  refine ⟨?_, ?_, ?_, ?_, ?_, ?_, ?_, ?_⟩
  · unfold postHandler
    (repeat' split) <;> (try simp) <;> exact absurd rfl (by assumption)
  · intro s w hs hne hw hnone
    have hne' : s.isEmpty = false := by
      cases h : s.isEmpty
      · rfl
      · exact absurd ((String.isEmpty_iff s).mp h) hne
    simp [postHandler, hs, hw, hne', hnone]
  · rcases h : resolve store key with _ | t <;> simp [updateHandler, h]
  · intro h
    rcases hr : resolve store key with _ | t
    · simp [hr] at h
    · simp [updateHandler, hr]
  · rcases h : resolve store key with _ | t <;> simp [deleteHandler, h]
  · intro h
    rcases hr : resolve store key with _ | t
    · simp [hr] at h
    · simp [deleteHandler, hr]
  · unfold deleteManyHandler
    (repeat' split) <;> (try simp) <;> exact absurd rfl (by assumption)
  · intro h
    rcases ids with _ | l <;> rcases specs with _ | l' <;>
      simp [deleteManyHandler] <;> simp at h


/-- C4 witness: each write path at a concrete failed store call. -/
theorem C4_witness :
    postHandler storeAB cacheAB bodyNew "n3" true = (.errStore, storeAB, cacheAB) ∧
    updateHandler storeAB cacheAB "sA" ubAbc true = (.errStore, storeAB, cacheAB) ∧
    deleteHandler storeAB cacheAB "sA" true = (.errStore, storeAB, cacheAB) ∧
    deleteManyHandler storeAB cacheAB (some ["sA"]) none true = (.errStore, storeAB, cacheAB) :=
  ⟨(C4_theorem storeAB cacheAB bodyNew "n3" "sA" ubAbc (some ["sA"]) none).2.1 "sNew" "1"
      rfl (by decide) rfl (by decide),
   (C4_theorem storeAB cacheAB bodyNew "n3" "sA" ubAbc (some ["sA"]) none).2.2.2.1 (by decide),
   (C4_theorem storeAB cacheAB bodyNew "n3" "sA" ubAbc (some ["sA"]) none).2.2.2.2.2.1 (by decide),
   (C4_theorem storeAB cacheAB bodyNew "n3" "sA" ubAbc (some ["sA"]) none).2.2.2.2.2.2.2
      (Or.inl (by decide))⟩

/- ------------------------------------------------------------------ -/
/- Claim C6: filter-stage semantics.                                  -/
/- ------------------------------------------------------------------ -/

/-- C6: the claim states that the spec/product filters are
case-insensitive substring matches.  Counterexample: the filter string
`a.c` is not a substring of the spec `abc` in any letter case, yet the
record passes the filter stage — the filter string is compiled as a
regular expression, whose `.` matches any character. -/
theorem C6_counterexample :
    filterStage qDot [recAbc] = [recAbc] ∧ ¬ substrCI "a.c" "abc" := by
  constructor
  · decide
  · intro h
    have h2 := (infixCheck_iff _ _).mpr h
    revert h2
    decide

/-- C6 (amended): a record passes the filter stage iff every supplied
filter passes, where `spec`/`product` filters are interpreted as
case-insensitive regular expressions tested against the field (absent
or empty filters impose no constraint), and `method_calc`/`cat_product`
compare with JS `===` against `parseInt` of the filter string; for a
filter string free of regex metacharacters the regex test coincides
with case-insensitive substring containment. -/
theorem C6_theorem (c : Cache) (q : SearchQuery) (r : Record) :
    (r ∈ filterStage q c.data ↔
      r ∈ c.data ∧
      (∀ s, q.spec = some s → s.isEmpty = false → regexTestCI s r.spec = true) ∧
      (∀ s, q.product = some s → s.isEmpty = false → regexTestCI s r.product = true) ∧
      (∀ s, q.method_calc = some s → jsIntEq r.method_calc (jsParseInt s) = true) ∧
      (∀ s, q.cat_product = some s → jsIntEq r.cat_product (jsParseInt s) = true)) ∧
    (∀ pat subj : String, '.' ∉ pat.toList →
      (regexTestCI pat subj = true ↔ substrCI pat subj)) := by
  constructor
  · rcases q with ⟨qs, qp, qm, qc⟩
    rcases qs with _ | s1 <;> rcases qp with _ | s2 <;>
      rcases qm with _ | s3 <;> rcases qc with _ | s4 <;>
        simp only [filterStage, List.mem_filter] <;>
          (try rcases h1 : s1.isEmpty with _ | _) <;>
            (try rcases h2 : s2.isEmpty with _ | _) <;>
              simp_all <;> tauto
  · intro pat subj hdot
    exact regexSearch_iff_infix pat.toList subj.toList hdot

/-- C6 witness: the record `abc` passes the query filtering on spec
`AB` and `method_calc = 0`, and the regex/substring equivalence holds
for the metacharacter-free filter `ab` against `xAbc`. -/
theorem C6_witness :
    recAbc ∈ filterStage qAbcQ cacheAbc.data ∧
    (regexTestCI "ab" "xAbc" = true ↔ substrCI "ab" "xAbc") := by
  refine ⟨(C6_theorem cacheAbc qAbcQ recAbc).1.mpr ⟨?_, ?_, ?_, ?_, ?_⟩,
          (C6_theorem cacheAbc qAbcQ recAbc).2 "ab" "xAbc" (by decide)⟩
  · decide
  · intro s hs hne
    simp only [qAbcQ, Option.some.injEq] at hs
    subst hs
    decide
  · intro s hs
    simp [qAbcQ] at hs
  · intro s hs
    simp only [qAbcQ, Option.some.injEq] at hs
    subst hs
    decide
  · intro s hs
    simp [qAbcQ] at hs

/- ------------------------------------------------------------------ -/
/- Claim C7: pagination.                                              -/
/- ------------------------------------------------------------------ -/

theorem flatten_chunks {α : Type} (S : ℕ) (hS : 1 ≤ S) :
    ∀ (k : ℕ) (l : List α), l.length ≤ k * S →
      ((List.range k).map fun i => (l.drop (i * S)).take S).flatten = l := by
  intro k
  induction k with
  | zero =>
    intro l hl
    simp at hl
    simp [hl]
  | succ k ih =>
    intro l hl
    rw [List.range_succ_eq_map, List.map_cons, List.map_map, List.flatten_cons]
    have hmap : (List.range k).map ((fun i => (l.drop (i * S)).take S) ∘ Nat.succ) =
        (List.range k).map fun i => ((l.drop S).drop (i * S)).take S := by
      refine List.map_congr_left fun i _ => ?_
      have : (Nat.succ i) * S = S + i * S := by
        rw [Nat.succ_mul, Nat.add_comm]
      simp [Function.comp, this, List.drop_drop, Nat.add_comm]
    have hks : (k + 1) * S = k * S + S := Nat.succ_mul k S
    have hlen : (l.drop S).length ≤ k * S := by
      simp only [List.length_drop]
      omega
    rw [hmap, ih (l.drop S) hlen]
    simpa using List.take_append_drop S l

/-- C7: the no-pagination sentinel (`limit ≥ 999999`, produced by an
absent `limit`) returns the whole filtered/sorted result as one page;
otherwise page `p` with size `S` is exactly the slice
`[(p-1)*S, p*S)` of the result, `total` is the result length, `pages`
is `⌈total/S⌉`, and concatenating pages `1..⌈total/S⌉` reproduces the
full result with each record exactly once. -/
theorem C7_theorem (c : Cache) (q : SearchQuery) (f : SortField) (ord : String)
    (S p L : ℕ) (hS1 : 1 ≤ S) (hS2 : S < 999999) (hp : 1 ≤ p) (hL : 999999 ≤ L) :
    (searchInCache c q p L f ord).data = sortStage f ord (filterStage q c.data) ∧
    (searchInCache c q p S f ord).data =
      ((sortStage f ord (filterStage q c.data)).drop ((p - 1) * S)).take S ∧
    (searchInCache c q p S f ord).total = (sortStage f ord (filterStage q c.data)).length ∧
    (searchInCache c q p S f ord).pages =
      ((sortStage f ord (filterStage q c.data)).length + S - 1) / S ∧
    ((List.range (((sortStage f ord (filterStage q c.data)).length + S - 1) / S)).map
        fun i => (searchInCache c q (i + 1) S f ord).data).flatten =
      sortStage f ord (filterStage q c.data) := by
  have hnot : ¬ 999999 ≤ S := Nat.not_le.mpr hS2
  refine ⟨by simp [searchInCache, hL], by simp [searchInCache, hnot],
          by simp [searchInCache, hnot], by simp [searchInCache, hnot], ?_⟩
  have hmap : (List.range (((sortStage f ord (filterStage q c.data)).length + S - 1) / S)).map
      (fun i => (searchInCache c q (i + 1) S f ord).data) =
      (List.range (((sortStage f ord (filterStage q c.data)).length + S - 1) / S)).map
      (fun i => (((sortStage f ord (filterStage q c.data)).drop (i * S)).take S)) :=
    List.map_congr_left fun i _ => by simp [searchInCache, hnot]
  rw [hmap]
  refine flatten_chunks S hS1 _ _ ?_
  rw [Nat.mul_comm]
  have h1 := Nat.div_add_mod ((sortStage f ord (filterStage q c.data)).length + S - 1) S
  have h2 : ((sortStage f ord (filterStage q c.data)).length + S - 1) % S < S :=
    Nat.mod_lt _ (by omega)
  omega

/-- C7 witness: paging `cacheAB` with size 1 and the sentinel. -/
theorem C7_witness :
    (searchInCache cacheAB qNone 1 999999 SortField.fspec "asc").data = [recA, recB] ∧
    (searchInCache cacheAB qNone 1 1 SortField.fspec "asc").data = [recA] ∧
    (searchInCache cacheAB qNone 1 1 SortField.fspec "asc").pages = 2 ∧
    ((List.range (((sortStage SortField.fspec "asc" (filterStage qNone cacheAB.data)).length
          + 1 - 1) / 1)).map
        fun i => (searchInCache cacheAB qNone (i + 1) 1 SortField.fspec "asc").data).flatten =
      sortStage SortField.fspec "asc" (filterStage qNone cacheAB.data) := by
  have h := C7_theorem cacheAB qNone SortField.fspec "asc" 1 1 999999
    (by decide) (by decide) (by decide) (by decide)
  exact ⟨h.1.trans (by decide), h.2.1.trans (by decide),
         h.2.2.2.1.trans (by decide), h.2.2.2.2⟩

/- ------------------------------------------------------------------ -/
/- Claim C9: sorting.  Generic lemmas about the insertion sort.       -/
/- ------------------------------------------------------------------ -/

theorem insertBy_perm {α : Type} (lt : α → α → Bool) (a : α) (l : List α) :
    (insertBy lt a l).Perm (a :: l) := by
  induction l with
  | nil => exact List.Perm.refl _
  | cons b bs ih =>
    rw [insertBy]
    by_cases h : lt a b = true
    · rw [if_pos h]
    · rw [if_neg h]
      exact (ih.cons b).trans (List.Perm.swap a b bs)

theorem foldl_insertBy_perm {α : Type} (lt : α → α → Bool) :
    ∀ (l acc : List α), (l.foldl (fun acc a => insertBy lt a acc) acc).Perm (acc ++ l) := by
  intro l
  induction l with
  | nil => intro acc; simp
  | cons x xs ih =>
    intro acc
    rw [List.foldl_cons]
    refine ((ih (insertBy lt x acc)).trans ?_)
    refine (((insertBy_perm lt x acc).append_right xs).trans ?_)
    exact (List.perm_middle : (acc ++ x :: xs).Perm (x :: (acc ++ xs))).symm

theorem stableSortBy_perm {α : Type} (lt : α → α → Bool) (l : List α) :
    (stableSortBy lt l).Perm l := by
  simpa using foldl_insertBy_perm lt l []

theorem insertBy_pairwise {α : Type} (lt : α → α → Bool)
    (hasym : ∀ x y, lt x y = true → lt y x = false)
    (htrans : ∀ x y z, lt x y = true → lt y z = true → lt x z = true)
    (a : α) (l : List α) (hl : l.Pairwise fun x y => lt y x = false) :
    (insertBy lt a l).Pairwise fun x y => lt y x = false := by
  induction l with
  | nil => simp [insertBy]
  | cons b bs ih =>
    rw [List.pairwise_cons] at hl
    obtain ⟨hb, hbs⟩ := hl
    rw [insertBy]
    by_cases h : lt a b = true
    · rw [if_pos h, List.pairwise_cons]
      refine ⟨?_, List.pairwise_cons.mpr ⟨hb, hbs⟩⟩
      intro y hy
      rcases List.mem_cons.mp hy with rfl | hy
      · exact hasym a y h
      · cases hya : lt y a
        · rfl
        · exact absurd (htrans y a b hya h) (by simp [hb y hy])
    · rw [if_neg h, List.pairwise_cons]
      refine ⟨?_, ih hbs⟩
      intro y hy
      have : y ∈ a :: bs := (insertBy_perm lt a bs).mem_iff.mp hy
      rcases List.mem_cons.mp this with rfl | hy'
      · simpa using h
      · exact hb y hy'

theorem foldl_insertBy_pairwise {α : Type} (lt : α → α → Bool)
    (hasym : ∀ x y, lt x y = true → lt y x = false)
    (htrans : ∀ x y z, lt x y = true → lt y z = true → lt x z = true) :
    ∀ (l acc : List α), acc.Pairwise (fun x y => lt y x = false) →
      (l.foldl (fun acc a => insertBy lt a acc) acc).Pairwise fun x y => lt y x = false := by
  intro l
  induction l with
  | nil => intro acc h; simpa using h
  | cons x xs ih =>
    intro acc h
    rw [List.foldl_cons]
    exact ih _ (insertBy_pairwise lt hasym htrans x acc h)

theorem stableSortBy_pairwise {α : Type} (lt : α → α → Bool)
    (hasym : ∀ x y, lt x y = true → lt y x = false)
    (htrans : ∀ x y z, lt x y = true → lt y z = true → lt x z = true)
    (l : List α) :
    (stableSortBy lt l).Pairwise fun x y => lt y x = false :=
  foldl_insertBy_pairwise lt hasym htrans l [] (List.Pairwise.nil)

theorem insertBy_filter {α : Type} (lt : α → α → Bool) (q : α → Bool)
    (hasym : ∀ x y, lt x y = true → lt y x = false)
    (hsame : ∀ x y z, q x = true → q y = true → lt x z = lt y z)
    (a : α) (l : List α) (hl : l.Pairwise fun x y => lt y x = false) :
    (insertBy lt a l).filter q = l.filter q ++ (if q a then [a] else []) := by
  have hirr : ∀ x, lt x x = false := by
    intro x
    cases h3 : lt x x
    · rfl
    · exact absurd (hasym x x h3) (by simp [h3])
  induction l with
  | nil => cases hqa : q a <;> simp [insertBy, List.filter, hqa]
  | cons b bs ih =>
    rw [List.pairwise_cons] at hl
    obtain ⟨hb, hbs⟩ := hl
    rw [insertBy]
    by_cases h : lt a b = true
    · rw [if_pos h]
      by_cases hqa : q a = true
      · have hnil : (b :: bs).filter q = [] := by
          rw [List.filter_eq_nil_iff]
          intro c hc hqc
          have h1 : lt a b = lt c b := hsame a c b hqa hqc
          rcases List.mem_cons.mp hc with hcb | hc'
          · rw [hcb, hirr b] at h1
            exact absurd h (by simp [h1])
          · rw [hb c hc'] at h1
            exact absurd h (by simp [h1])
        simp [List.filter_cons, hqa, hnil]
      · have hqa' : q a = false := by simpa using hqa
        simp [List.filter_cons, hqa']
    · rw [if_neg h]
      rw [List.filter_cons, ih hbs]
      by_cases hqb : q b = true
      · simp [List.filter_cons, hqb]
      · have hqb' : q b = false := by simpa using hqb
        simp [List.filter_cons, hqb']

theorem foldl_insertBy_filter {α : Type} (lt : α → α → Bool) (q : α → Bool)
    (hasym : ∀ x y, lt x y = true → lt y x = false)
    (htrans : ∀ x y z, lt x y = true → lt y z = true → lt x z = true)
    (hsame : ∀ x y z, q x = true → q y = true → lt x z = lt y z) :
    ∀ (l acc : List α), acc.Pairwise (fun x y => lt y x = false) →
      (l.foldl (fun acc a => insertBy lt a acc) acc).filter q =
        acc.filter q ++ l.filter q := by
  intro l
  induction l with
  | nil => intro acc h; simp
  | cons x xs ih =>
    intro acc h
    rw [List.foldl_cons, ih _ (insertBy_pairwise lt hasym htrans x acc h),
      insertBy_filter lt q hasym hsame x acc h, List.filter_cons]
    by_cases hqx : q x = true
    · simp [hqx]
    · have hqx' : q x = false := by simpa using hqx
      simp [hqx']

theorem stableSortBy_filter {α : Type} (lt : α → α → Bool) (q : α → Bool)
    (hasym : ∀ x y, lt x y = true → lt y x = false)
    (htrans : ∀ x y z, lt x y = true → lt y z = true → lt x z = true)
    (hsame : ∀ x y z, q x = true → q y = true → lt x z = lt y z)
    (l : List α) :
    (stableSortBy lt l).filter q = l.filter q := by
  simpa using foldl_insertBy_filter lt q hasym htrans hsame l [] (List.Pairwise.nil)

theorem listLt_asymm : ∀ as bs, listLt as bs = true → listLt bs as = false := by
  intro as
  induction as with
  | nil =>
    intro bs h
    cases bs with
    | nil => simpa [listLt] using h
    | cons b bs => simp [listLt]
  | cons a as ih =>
    intro bs h
    cases bs with
    | nil => simp [listLt] at h
    | cons b bs =>
      by_cases h1 : a.toNat < b.toNat
      · have h2 : ¬ b.toNat < a.toNat := by omega
        simp [listLt, h1, h2]
      · by_cases h2 : b.toNat < a.toNat
        · simp [listLt, h1, h2] at h
        · simp [listLt, h1, h2] at h ⊢
          exact ih bs h

theorem listLt_trans : ∀ as bs cs, listLt as bs = true → listLt bs cs = true →
    listLt as cs = true := by
  intro as
  induction as with
  | nil =>
    intro bs cs h1 h2
    cases bs with
    | nil => simp [listLt] at h1
    | cons b bs =>
      cases cs with
      | nil => simp [listLt] at h2
      | cons c cs => simp [listLt]
  | cons a as ih =>
    intro bs cs h1 h2
    cases bs with
    | nil => simp [listLt] at h1
    | cons b bs =>
      cases cs with
      | nil => simp [listLt] at h2
      | cons c cs =>
        by_cases hab : a.toNat < b.toNat
        · by_cases hbc : b.toNat < c.toNat
          · simp [listLt, show a.toNat < c.toNat by omega]
          · by_cases hcb : c.toNat < b.toNat
            · simp [listLt, hbc, hcb] at h2
            · simp [listLt, show a.toNat < c.toNat by omega]
        · by_cases hba : b.toNat < a.toNat
          · simp [listLt, hab, hba] at h1
          · simp [listLt, hab, hba] at h1
            by_cases hbc : b.toNat < c.toNat
            · simp [listLt, show a.toNat < c.toNat by omega]
            · by_cases hcb : c.toNat < b.toNat
              · simp [listLt, hbc, hcb] at h2
              · simp [listLt, hbc, hcb] at h2
                simp [listLt, show ¬ a.toNat < c.toNat by omega,
                  show ¬ c.toNat < a.toNat by omega]
                exact ih bs cs h1 h2

theorem fvLt_asymm : ∀ u v, fvLt u v = true → fvLt v u = false := by
  intro u v h
  cases u with
  | str a =>
    cases v with
    | str b => simpa [fvLt] using listLt_asymm _ _ (by simpa [fvLt] using h)
    | num q => simp [fvLt] at h
  | num p =>
    cases v with
    | str b =>
      cases p <;> simp [fvLt] at h
    | num q =>
      cases p with
      | none => simp [fvLt] at h
      | some a =>
        cases q with
        | none => simp [fvLt] at h
        | some b =>
          simp [fvLt] at h ⊢
          exact le_of_lt h

theorem fvLt_trans : ∀ u v w, fvLt u v = true → fvLt v w = true → fvLt u w = true := by
  intro u v w h1 h2
  cases u with
  | str a =>
    cases v with
    | str b =>
      cases w with
      | str cc =>
        simp [fvLt] at h1 h2 ⊢
        exact listLt_trans _ _ _ h1 h2
      | num r => simp [fvLt] at h2
    | num q => simp [fvLt] at h1
  | num p =>
    cases v with
    | str b => cases p <;> simp [fvLt] at h1
    | num q =>
      cases w with
      | str cc => cases q <;> simp [fvLt] at h2
      | num r =>
        cases p with
        | none => simp [fvLt] at h1
        | some a =>
          cases q with
          | none => simp [fvLt] at h1
          | some b =>
            cases r with
            | none => simp [fvLt] at h2
            | some cv =>
              simp [fvLt] at h1 h2 ⊢
              exact lt_trans h1 h2

theorem recLt_asymm (f : SortField) (ord : String) :
    ∀ x y : Record, recLt f ord x y = true → recLt f ord y x = false := by
  intro x y h
  unfold recLt at h ⊢
  by_cases hd : ord = "desc"
  · rw [if_pos (by simp [hd])] at h ⊢
    exact fvLt_asymm _ _ h
  · rw [if_neg (by simp [hd])] at h ⊢
    exact fvLt_asymm _ _ h

theorem recLt_trans (f : SortField) (ord : String) :
    ∀ x y z : Record, recLt f ord x y = true → recLt f ord y z = true →
      recLt f ord x z = true := by
  intro x y z h1 h2
  unfold recLt at h1 h2 ⊢
  by_cases hd : ord = "desc"
  · rw [if_pos (by simp [hd])] at h1 h2 ⊢
    exact fvLt_trans _ _ _ h2 h1
  · rw [if_neg (by simp [hd])] at h1 h2 ⊢
    exact fvLt_trans _ _ _ h1 h2

theorem recLt_key_congr (f : SortField) (ord : String) (v : FieldVal)
    (x y z : Record) (hx : (sortKeyOf f x == v) = true) (hy : (sortKeyOf f y == v) = true) :
    recLt f ord x z = recLt f ord y z := by
  rw [beq_iff_eq] at hx hy
  have hxy : sortKeyOf f x = sortKeyOf f y := by rw [hx, hy]
  unfold recLt
  by_cases hd : ord = "desc"
  · rw [if_pos (by simp [hd]), if_pos (by simp [hd]), hxy]
  · rw [if_neg (by simp [hd]), if_neg (by simp [hd]), hxy]

/-- C9: the sort stage of a cache query returns a permutation of the
filtered records that is (a) pairwise sorted by the named field under
the JS comparator — ascending unless `order` is `desc`, strings
compared lexicographically by code unit, numbers numerically — and
(b) stable: for every sort-key value, the records carrying that value
appear in exactly the order they had before sorting (their snapshot
order); with the no-pagination sentinel this list is precisely the
query result. -/
theorem C9_theorem (c : Cache) (q : SearchQuery) (f : SortField) (ord : String) :
    (∀ p : ℕ, (searchInCache c q p 999999 f ord).data =
      sortStage f ord (filterStage q c.data)) ∧
    (sortStage f ord (filterStage q c.data)).Perm (filterStage q c.data) ∧
    (sortStage f ord (filterStage q c.data)).Pairwise
      (fun a b => recLt f ord b a = false) ∧
    ∀ v : FieldVal,
      (sortStage f ord (filterStage q c.data)).filter (fun r => sortKeyOf f r == v) =
        (filterStage q c.data).filter (fun r => sortKeyOf f r == v) := by
  refine ⟨fun p => by simp [searchInCache], stableSortBy_perm _ _,
    stableSortBy_pairwise _ (recLt_asymm f ord) (recLt_trans f ord) _,
    fun v => stableSortBy_filter _ _ (recLt_asymm f ord) (recLt_trans f ord)
      (fun x y z hx hy => recLt_key_congr f ord v x y z hx hy) _⟩

/- ------------------------------------------------------------------ -/
/- Claim C1: association-list and store decomposition lemmas.         -/
/- ------------------------------------------------------------------ -/

theorem mapGet_eq_none (m : RecMap) (k : String) (h : k ∉ m.map Prod.fst) :
    mapGet m k = none := by
  induction m with
  | nil => rfl
  | cons p rest ih =>
    obtain ⟨k', v⟩ := p
    have hk : k' ≠ k := by
      intro hkk
      exact h (by simp [hkk])
    rw [mapGet, if_neg (by simpa using hk)]
    exact ih (fun hm => h (by simp at hm ⊢; tauto))

theorem mapGet_of_mem_nodup (m : RecMap) (k : String) (v : Record)
    (hmem : (k, v) ∈ m) (hnd : (m.map Prod.fst).Nodup) :
    mapGet m k = some v := by
  induction m with
  | nil => cases hmem
  | cons p rest ih =>
    obtain ⟨k', v'⟩ := p
    rw [List.map_cons, List.nodup_cons] at hnd
    rcases List.mem_cons.mp hmem with heq | hmem'
    · injection heq with h1 h2
      subst h1
      subst h2
      rw [mapGet, if_pos (by simp)]
    · have hk : k' ≠ k := by
        intro hkk
        subst hkk
        exact hnd.1 (by simp; exact ⟨v, hmem'⟩)
      rw [mapGet, if_neg (by simpa using hk)]
      exact ih hmem' hnd.2

theorem mapSet_of_not_mem (m : RecMap) (k : String) (v : Record)
    (h : k ∉ m.map Prod.fst) : mapSet m k v = m ++ [(k, v)] := by
  induction m with
  | nil => rfl
  | cons p rest ih =>
    obtain ⟨k', v'⟩ := p
    have hk : k' ≠ k := by
      intro hkk
      exact h (by simp [hkk])
    rw [mapSet, if_neg (by simpa using hk), List.cons_append,
      ih (fun hm => h (by simp at hm ⊢; tauto))]

theorem mapDelete_cons_perm (m : RecMap) (k : String) (v : Record)
    (hnd : (m.map Prod.fst).Nodup) (hmem : (k, v) ∈ m) :
    m.Perm ((k, v) :: mapDelete m k) := by
  induction m with
  | nil => cases hmem
  | cons p rest ih =>
    obtain ⟨k', v'⟩ := p
    rw [List.map_cons, List.nodup_cons] at hnd
    rcases List.mem_cons.mp hmem with heq | hmem'
    · injection heq with h1 h2
      subst h1
      subst h2
      rw [mapDelete, if_pos (by simp)]
    · have hk : k' ≠ k := by
        intro hkk
        subst hkk
        exact hnd.1 (by simp; exact ⟨v, hmem'⟩)
      rw [mapDelete, if_neg (by simpa using hk)]
      exact ((ih hnd.2 hmem').cons (k', v')).trans (List.Perm.swap (k, v) (k', v') _)

theorem mapSet_perm_update (m : RecMap) (k : String) (v₀ v : Record)
    (hnd : (m.map Prod.fst).Nodup) (hmem : (k, v₀) ∈ m) :
    (mapSet m k v).Perm ((k, v) :: mapDelete m k) := by
  induction m with
  | nil => cases hmem
  | cons p rest ih =>
    obtain ⟨k', v'⟩ := p
    rw [List.map_cons, List.nodup_cons] at hnd
    rcases List.mem_cons.mp hmem with heq | hmem'
    · injection heq with h1 h2
      subst h1
      subst h2
      rw [mapSet, if_pos (by simp), mapDelete, if_pos (by simp)]
    · have hk : k' ≠ k := by
        intro hkk
        subst hkk
        exact hnd.1 (by simp; exact ⟨v₀, hmem'⟩)
      rw [mapSet, if_neg (by simpa using hk), mapDelete, if_neg (by simpa using hk)]
      exact ((ih hnd.2 hmem').cons (k', v')).trans (List.Perm.swap (k, v) (k', v') _)

theorem find?_decomp {α : Type} (p : α → Bool) (l : List α) (a : α)
    (h : l.find? p = some a) :
    ∃ l1 l2, l = l1 ++ a :: l2 ∧ ∀ x ∈ l1, p x = false := by
  induction l with
  | nil => cases h
  | cons b bs ih =>
    cases hb : p b
    · rw [List.find?_cons_of_neg _ (by simp [hb])] at h
      obtain ⟨l1, l2, rfl, hl1⟩ := ih h
      refine ⟨b :: l1, l2, rfl, ?_⟩
      intro x hx
      rcases List.mem_cons.mp hx with rfl | hx'
      · exact hb
      · exact hl1 x hx'
    · rw [List.find?_cons_of_pos _ hb] at h
      injection h with h1
      subst h1
      exact ⟨[], bs, rfl, by simp⟩

theorem eraseP_append_cons {α : Type} (p : α → Bool) (l1 l2 : List α) (a : α)
    (h1 : ∀ x ∈ l1, p x = false) (ha : p a = true) :
    (l1 ++ a :: l2).eraseP p = l1 ++ l2 := by
  induction l1 with
  | nil => simp [List.eraseP_cons, ha]
  | cons b bs ih =>
    have hb : p b = false := h1 b (List.mem_cons_self b bs)
    simp only [List.cons_append, List.eraseP_cons, hb, cond_false]
    rw [ih (fun x hx => h1 x (List.mem_cons_of_mem b hx))]

theorem findIdx?_append_cons {α : Type} (p : α → Bool) (l1 l2 : List α) (t : α)
    (h1 : ∀ x ∈ l1, p x = false) (ht : p t = true) :
    (l1 ++ t :: l2).findIdx? p = some l1.length := by
  induction l1 with
  | nil => simp [List.findIdx?_cons, ht]
  | cons b bs ih =>
    have hb : p b = false := h1 b (List.mem_cons_self b bs)
    rw [List.cons_append, List.findIdx?_cons, if_neg (by simp [hb]), List.findIdx?_succ,
      ih (fun x hx => h1 x (List.mem_cons_of_mem b hx))]
    simp

theorem set_append_length {α : Type} (l1 l2 : List α) (t t' : α) :
    (l1 ++ t :: l2).set l1.length t' = l1 ++ t' :: l2 := by
  induction l1 with
  | nil => rfl
  | cons b bs ih => simpa using ih

theorem replaceInData_decomp (l1 l2 : List Record) (t t' : Record) (i : String)
    (h1 : ∀ x ∈ l1, x.id ≠ i) (ht : t.id = i) :
    replaceInData (l1 ++ t :: l2) i t' = l1 ++ t' :: l2 := by
  rw [replaceInData,
    findIdx?_append_cons (fun m => m.id == i) l1 l2 t
      (fun x hx => by simpa using h1 x hx) (by simp [ht])]
  exact set_append_length l1 l2 t t'

theorem map_subst_decomp (l1 l2 : List Record) (t t' : Record) (i : String)
    (h1 : ∀ x ∈ l1, x.id ≠ i) (h2 : ∀ x ∈ l2, x.id ≠ i) (ht : t.id = i) :
    (l1 ++ t :: l2).map (fun r => if r.id == i then t' else r) = l1 ++ t' :: l2 := by
  rw [List.map_append, List.map_cons, if_pos (by simp [ht])]
  rw [List.map_congr_left (fun x hx => if_neg (by simpa using h1 x hx)),
    List.map_congr_left (fun x hx => if_neg (by simpa using h2 x hx))]
  simp

theorem goodState_coherent (st : SysState) (hg : GoodState st) : Coherent st.cache := by
  obtain ⟨hl, hd, hsn, hin, hne, hbs, hbi⟩ := hg
  have hkS : (st.cache.bySpec.map Prod.fst).Perm (st.store.map Record.spec) := by
    simpa [List.map_map, Function.comp] using hbs.map Prod.fst
  have hkI : (st.cache.byId.map Prod.fst).Perm (st.store.map Record.id) := by
    simpa [List.map_map, Function.comp] using hbi.map Prod.fst
  have hkSn : (st.cache.bySpec.map Prod.fst).Nodup := hkS.nodup_iff.mpr hsn
  have hkIn : (st.cache.byId.map Prod.fst).Nodup := hkI.nodup_iff.mpr hin
  refine ⟨?_, ?_, ?_⟩
  · intro r hr
    rw [hd] at hr
    constructor
    · exact mapGet_of_mem_nodup _ _ _ (hbs.mem_iff.mpr (List.mem_map.mpr ⟨r, hr, rfl⟩)) hkSn
    · exact mapGet_of_mem_nodup _ _ _ (hbi.mem_iff.mpr (List.mem_map.mpr ⟨r, hr, rfl⟩)) hkIn
  · intro p hp
    obtain ⟨r, hr, hpr⟩ := List.mem_map.mp (hbs.mem_iff.mp hp)
    rw [hd, ← hpr]
    exact hr
  · intro p hp
    obtain ⟨r, hr, hpr⟩ := List.mem_map.mp (hbi.mem_iff.mp hp)
    rw [hd, ← hpr]
    exact hr

theorem goodState_create (st : SysState) (b : CreateBody) (newId : String)
    (hg : GoodState st) (hfresh : ∀ r ∈ st.store, r.id ≠ newId) :
    GoodState (applyOp st (.create b newId)) := by
  obtain ⟨store, cache⟩ := st
  obtain ⟨hl, hd, hsn, hin, hne, hbs, hbi⟩ := hg
  simp only at hl hd hsn hin hne hbs hbi
  rcases hbspec : b.spec with _ | s
  · simp only [applyOp, postHandler, hbspec]
    exact ⟨hl, hd, hsn, hin, hne, hbs, hbi⟩
  rcases hbwpm : b.wpm with _ | w
  · simp only [applyOp, postHandler, hbspec, hbwpm]
    exact ⟨hl, hd, hsn, hin, hne, hbs, hbi⟩
  by_cases hse : s.isEmpty = true
  · simp only [applyOp, postHandler, hbspec, hbwpm, if_pos hse]
    exact ⟨hl, hd, hsn, hin, hne, hbs, hbi⟩
  rcases hdup : (store.find? fun r => r.spec == s).isSome with _ | _
  case neg.true =>
    simp only [applyOp, postHandler, hbspec, hbwpm, if_neg hse, hdup, if_pos rfl]
    exact ⟨hl, hd, hsn, hin, hne, hbs, hbi⟩
  case neg.false =>
    have hnone : store.find? (fun r => r.spec == s) = none :=
      Option.not_isSome_iff_eq_none.mp (by simp [hdup])
    have hnodup : ∀ r ∈ store, r.spec ≠ s := by
      intro r hr hrs
      have h3 := List.find?_eq_none.mp hnone r hr
      simp [hrs] at h3
    simp only [applyOp, postHandler, hbspec, hbwpm, if_neg hse, hdup, Bool.false_eq_true,
      if_false, hl, if_true, ite_true, ite_false, eq_self_iff_true]
    refine ⟨rfl, ?_, ?_, ?_, ?_, ?_, ?_⟩
    · rw [hd]
    · rw [List.map_append, List.nodup_append]
      refine ⟨hsn, by simp, ?_⟩
      intro a ha hb
      simp at hb
      obtain ⟨r, hr, hras⟩ := List.mem_map.mp ha
      exact hnodup r hr (by rw [hras, hb])
    · rw [List.map_append, List.nodup_append]
      refine ⟨hin, by simp, ?_⟩
      intro a ha hb
      simp at hb
      obtain ⟨r, hr, hras⟩ := List.mem_map.mp ha
      exact hfresh r hr (by rw [hras, hb])
    · intro r hr
      rcases List.mem_append.mp hr with hr' | hr'
      · exact hne r hr'
      · have : r.spec = s := by
          simp at hr'
          rw [hr']
        rw [this]
        intro hc
        exact hse (String.isEmpty_iff s |>.mpr hc)
    · have hks : s ∉ cache.bySpec.map Prod.fst := by
        intro hks
        have hkS : (cache.bySpec.map Prod.fst).Perm (store.map Record.spec) := by
          simpa [List.map_map, Function.comp] using hbs.map Prod.fst
        obtain ⟨r, hr, hrs⟩ := List.mem_map.mp (hkS.mem_iff.mp hks)
        exact hnodup r hr hrs
      rw [mapSet_of_not_mem _ _ _ hks, List.map_append]
      exact hbs.append_right _
    · have hki : newId ∉ cache.byId.map Prod.fst := by
        intro hki
        have hkI : (cache.byId.map Prod.fst).Perm (store.map Record.id) := by
          simpa [List.map_map, Function.comp] using hbi.map Prod.fst
        obtain ⟨r, hr, hrs⟩ := List.mem_map.mp (hkI.mem_iff.mp hki)
        exact hfresh r hr hrs
      rw [mapSet_of_not_mem _ _ _ hki, List.map_append]
      exact hbi.append_right _

theorem goodState_delete (st : SysState) (key : String)
    (hg : GoodState st) : GoodState (applyOp st (.deleteOne key)) := by
  obtain ⟨store, cache⟩ := st
  obtain ⟨hl, hd, hsn, hin, hne, hbs, hbi⟩ := hg
  simp only at hl hd hsn hin hne hbs hbi
  rcases hres : resolve store key with _ | t
  · simp only [applyOp, deleteHandler, hres]
    exact ⟨hl, hd, hsn, hin, hne, hbs, hbi⟩
  have hdec : ∃ l1 l2, store = l1 ++ t :: l2 ∧
      (if isObjectIdShaped key = true then store.eraseP (fun r => r.id == key)
       else store.eraseP (fun r => r.spec == key)) = l1 ++ l2 := by
    unfold resolve at hres
    by_cases hsh : isObjectIdShaped key = true
    · rw [if_pos hsh] at hres
      have hp := List.find?_some hres
      obtain ⟨l1, l2, he, hfail⟩ := find?_decomp _ _ _ hres
      refine ⟨l1, l2, he, ?_⟩
      rw [if_pos hsh, he]
      exact eraseP_append_cons _ _ _ _ hfail hp
    · rw [if_neg hsh] at hres
      have hp := List.find?_some hres
      obtain ⟨l1, l2, he, hfail⟩ := find?_decomp _ _ _ hres
      refine ⟨l1, l2, he, ?_⟩
      rw [if_neg hsh, he]
      exact eraseP_append_cons _ _ _ _ hfail hp
  obtain ⟨l1, l2, hst, herase⟩ := hdec
  subst hst
  rw [List.map_append, List.map_cons] at hin hsn
  have hinc := List.nodup_cons.mp (List.nodup_middle.mp hin)
  have hsnc := List.nodup_cons.mp (List.nodup_middle.mp hsn)
  have h1id : ∀ x ∈ l1, x.id ≠ t.id := fun x hx he =>
    hinc.1 (List.mem_append.mpr (.inl (List.mem_map.mpr ⟨x, hx, he⟩)))
  have h2id : ∀ x ∈ l2, x.id ≠ t.id := fun x hx he =>
    hinc.1 (List.mem_append.mpr (.inr (List.mem_map.mpr ⟨x, hx, he⟩)))
  have hkSn : (cache.bySpec.map Prod.fst).Nodup := by
    have hkS : (cache.bySpec.map Prod.fst).Perm ((l1 ++ t :: l2).map Record.spec) := by
      simpa [List.map_map, Function.comp] using hbs.map Prod.fst
    refine hkS.nodup_iff.mpr ?_
    rw [List.map_append, List.map_cons]
    exact hsn
  have hkIn : (cache.byId.map Prod.fst).Nodup := by
    have hkI : (cache.byId.map Prod.fst).Perm ((l1 ++ t :: l2).map Record.id) := by
      simpa [List.map_map, Function.comp] using hbi.map Prod.fst
    refine hkI.nodup_iff.mpr ?_
    rw [List.map_append, List.map_cons]
    exact hin
  have htmem : t ∈ l1 ++ t :: l2 := List.mem_append.mpr (.inr (List.mem_cons_self t l2))
  have hmemS : (t.spec, t) ∈ cache.bySpec :=
    hbs.mem_iff.mpr (List.mem_map.mpr ⟨t, htmem, rfl⟩)
  have hmemI : (t.id, t) ∈ cache.byId :=
    hbi.mem_iff.mpr (List.mem_map.mpr ⟨t, htmem, rfl⟩)
  have hdelS : (mapDelete cache.bySpec t.spec).Perm
      ((l1 ++ l2).map fun r => (r.spec, r)) := by
    have h5 := mapDelete_cons_perm cache.bySpec t.spec t hkSn hmemS
    have h6 : cache.bySpec.Perm ((t.spec, t) :: ((l1.map fun r => (r.spec, r)) ++
        l2.map fun r => (r.spec, r))) := by
      refine hbs.trans ?_
      rw [List.map_append, List.map_cons]
      exact List.perm_middle
    have h7 := (h5.symm.trans h6).cons_inv
    rw [List.map_append]
    exact h7
  have hdelI : (mapDelete cache.byId t.id).Perm
      ((l1 ++ l2).map fun r => (r.id, r)) := by
    have h5 := mapDelete_cons_perm cache.byId t.id t hkIn hmemI
    have h6 : cache.byId.Perm ((t.id, t) :: ((l1.map fun r => (r.id, r)) ++
        l2.map fun r => (r.id, r))) := by
      refine hbi.trans ?_
      rw [List.map_append, List.map_cons]
      exact List.perm_middle
    have h7 := (h5.symm.trans h6).cons_inv
    rw [List.map_append]
    exact h7
  simp only [applyOp, deleteHandler, hres, hl, if_true, ite_true, Bool.false_eq_true,
    if_false, ite_false, eq_self_iff_true]
  rw [herase]
  refine ⟨rfl, ?_, ?_, ?_, ?_, hdelS, hdelI⟩
  · show cache.data.filter (fun m => m.id != t.id) = l1 ++ l2
    rw [hd, List.filter_append, List.filter_cons]
    have hself1 : l1.filter (fun m => m.id != t.id) = l1 :=
      List.filter_eq_self.mpr fun x hx => by simpa using h1id x hx
    have hself2 : l2.filter (fun m => m.id != t.id) = l2 :=
      List.filter_eq_self.mpr fun x hx => by simpa using h2id x hx
    simp [hself1, hself2]
  · show ((l1 ++ l2).map Record.spec).Nodup
    rw [List.map_append]
    exact hsnc.2
  · show ((l1 ++ l2).map Record.id).Nodup
    rw [List.map_append]
    exact hinc.2
  · intro r hr
    rcases List.mem_append.mp hr with hr' | hr'
    · exact hne r (List.mem_append.mpr (.inl hr'))
    · exact hne r (List.mem_append.mpr (.inr (List.mem_cons_of_mem t hr')))

theorem updateHandler_found (store : Store) (cache : Cache) (key : String) (b : UpdateBody)
    (t : Record) (hres : resolve store key = some t) (hl : cache.isLoaded = true)
    (hget : mapGet cache.byId (applyUpd t (convertUpdateNumerics b)).id = some t) :
    updateHandler store cache key b false =
      (.ok (applyUpd t (convertUpdateNumerics b)),
       store.map (fun r => if r.id == t.id then applyUpd t (convertUpdateNumerics b) else r),
       { cache with
          data := replaceInData cache.data (applyUpd t (convertUpdateNumerics b)).id
                    (applyUpd t (convertUpdateNumerics b)),
          bySpec := mapSet
            (if t.spec != "" && t.spec != (applyUpd t (convertUpdateNumerics b)).spec
             then mapDelete cache.bySpec t.spec else cache.bySpec)
            (applyUpd t (convertUpdateNumerics b)).spec
            (applyUpd t (convertUpdateNumerics b)),
          byId := mapSet cache.byId (applyUpd t (convertUpdateNumerics b)).id
                    (applyUpd t (convertUpdateNumerics b)) }) := by
  simp only [updateHandler, hres, hl, hget, Option.map_some', if_true, ite_true,
    Bool.false_eq_true, ite_false]

theorem goodState_update (st : SysState) (key : String) (b : UpdateBody)
    (hg : GoodState st) (hok : OpOK st (.update key b)) :
    GoodState (applyOp st (.update key b)) := by
  obtain ⟨store, cache⟩ := st
  obtain ⟨hl, hd, hsn, hin, hne, hbs, hbi⟩ := hg
  simp only at hl hd hsn hin hne hbs hbi
  rcases hres : resolve store key with _ | t
  · simp only [applyOp, updateHandler, hres]
    exact ⟨hl, hd, hsn, hin, hne, hbs, hbi⟩
  obtain ⟨l1, l2, hst⟩ : ∃ l1 l2, store = l1 ++ t :: l2 := by
    unfold resolve at hres
    by_cases hsh : isObjectIdShaped key = true
    · rw [if_pos hsh] at hres
      obtain ⟨l1, l2, he, _⟩ := find?_decomp _ _ _ hres
      exact ⟨l1, l2, he⟩
    · rw [if_neg hsh] at hres
      obtain ⟨l1, l2, he, _⟩ := find?_decomp _ _ _ hres
      exact ⟨l1, l2, he⟩
  subst hst
  rw [List.map_append, List.map_cons] at hin hsn
  have hinc := List.nodup_cons.mp (List.nodup_middle.mp hin)
  have hsnc := List.nodup_cons.mp (List.nodup_middle.mp hsn)
  have h1id : ∀ x ∈ l1, x.id ≠ t.id := fun x hx he =>
    hinc.1 (List.mem_append.mpr (.inl (List.mem_map.mpr ⟨x, hx, he⟩)))
  have h2id : ∀ x ∈ l2, x.id ≠ t.id := fun x hx he =>
    hinc.1 (List.mem_append.mpr (.inr (List.mem_map.mpr ⟨x, hx, he⟩)))
  have hkSn : (cache.bySpec.map Prod.fst).Nodup := by
    have hkS : (cache.bySpec.map Prod.fst).Perm ((l1 ++ t :: l2).map Record.spec) := by
      simpa [List.map_map, Function.comp] using hbs.map Prod.fst
    refine hkS.nodup_iff.mpr ?_
    rw [List.map_append, List.map_cons]
    exact hsn
  have hkIn : (cache.byId.map Prod.fst).Nodup := by
    have hkI : (cache.byId.map Prod.fst).Perm ((l1 ++ t :: l2).map Record.id) := by
      simpa [List.map_map, Function.comp] using hbi.map Prod.fst
    refine hkI.nodup_iff.mpr ?_
    rw [List.map_append, List.map_cons]
    exact hin
  have htmem : t ∈ l1 ++ t :: l2 := List.mem_append.mpr (.inr (List.mem_cons_self t l2))
  have hmemS : (t.spec, t) ∈ cache.bySpec :=
    hbs.mem_iff.mpr (List.mem_map.mpr ⟨t, htmem, rfl⟩)
  have hmemI : (t.id, t) ∈ cache.byId :=
    hbi.mem_iff.mpr (List.mem_map.mpr ⟨t, htmem, rfl⟩)
  have hgetI : mapGet cache.byId (applyUpd t (convertUpdateNumerics b)).id = some t :=
    mapGet_of_mem_nodup _ _ _ hmemI hkIn
  have htne : t.spec ≠ "" := hne t htmem
  set t' := applyUpd t (convertUpdateNumerics b) with ht'
  have htid : t'.id = t.id := rfl
  have hdelS : (mapDelete cache.bySpec t.spec).Perm
      ((l1.map fun r => (r.spec, r)) ++ l2.map fun r => (r.spec, r)) := by
    have h5 := mapDelete_cons_perm cache.bySpec t.spec t hkSn hmemS
    have h6 : cache.bySpec.Perm ((t.spec, t) :: ((l1.map fun r => (r.spec, r)) ++
        l2.map fun r => (r.spec, r))) := by
      refine hbs.trans ?_
      rw [List.map_append, List.map_cons]
      exact List.perm_middle
    exact (h5.symm.trans h6).cons_inv
  have hdelI : (mapDelete cache.byId t.id).Perm
      ((l1.map fun r => (r.id, r)) ++ l2.map fun r => (r.id, r)) := by
    have h5 := mapDelete_cons_perm cache.byId t.id t hkIn hmemI
    have h6 : cache.byId.Perm ((t.id, t) :: ((l1.map fun r => (r.id, r)) ++
        l2.map fun r => (r.id, r))) := by
      refine hbi.trans ?_
      rw [List.map_append, List.map_cons]
      exact List.perm_middle
    exact (h5.symm.trans h6).cons_inv
  have hstore' : (l1 ++ t :: l2).map (fun r => if r.id == t.id then t' else r) =
      l1 ++ t' :: l2 := map_subst_decomp l1 l2 t t' t.id h1id h2id rfl
  have hdata' : replaceInData cache.data t'.id t' = l1 ++ t' :: l2 := by
    rw [hd]
    exact replaceInData_decomp l1 l2 t t' t'.id h1id rfl
  have hmain : t'.spec ≠ "" ∧
      ((l1 ++ t' :: l2).map Record.spec).Nodup ∧
      (mapSet (if t.spec != "" && t.spec != t'.spec then mapDelete cache.bySpec t.spec
               else cache.bySpec) t'.spec t').Perm
        ((l1 ++ t' :: l2).map fun r => (r.spec, r)) := by
    by_cases hsp : t'.spec = t.spec
    · have hcond : (t.spec != "" && t.spec != t'.spec) = false := by
        simp [hsp]
      refine ⟨hsp ▸ htne, ?_, ?_⟩
      · rw [List.map_append, List.map_cons, hsp]
        exact hsn
      · rw [if_neg (by simp [hcond]), List.map_append, List.map_cons]
        have h8 : (mapSet cache.bySpec t'.spec t').Perm
            ((t.spec, t') :: mapDelete cache.bySpec t.spec) := by
          rw [hsp]
          exact mapSet_perm_update cache.bySpec t.spec t t' hkSn hmemS
        refine (h8.trans (hdelS.cons _)).trans ?_
        rw [hsp]
        exact List.perm_middle.symm
    · obtain ⟨s, hbspec⟩ : ∃ s, b.spec = some s := by
        rcases hb : b.spec with _ | s
        · exfalso
          apply hsp
          rw [ht']
          simp [applyUpd, convertUpdateNumerics, hb]
        · exact ⟨s, rfl⟩
      have hts' : t'.spec = s := by
        rw [ht']
        simp [applyUpd, convertUpdateNumerics, hbspec]
      have hok' : s ≠ "" ∧ ∀ r ∈ l1 ++ t :: l2, r.id ≠ t.id → r.spec ≠ s := by
        simp only [OpOK, hres, hbspec] at hok
        exact hok
      have hsne : t.spec ≠ s := by
        intro h
        exact hsp (by rw [hts', ← h])
      have hnotin : s ∉ (l1.map Record.spec) ++ l2.map Record.spec := by
        intro hmem
        rcases List.mem_append.mp hmem with hm | hm
        · obtain ⟨x, hx, hxs⟩ := List.mem_map.mp hm
          exact hok'.2 x (List.mem_append.mpr (.inl hx)) (h1id x hx) hxs
        · obtain ⟨x, hx, hxs⟩ := List.mem_map.mp hm
          exact hok'.2 x (List.mem_append.mpr (.inr (List.mem_cons_of_mem t hx)))
            (h2id x hx) hxs
      have hcond : (t.spec != "" && t.spec != t'.spec) = true := by
        rw [hts']
        simp [htne, hsne]
      refine ⟨by rw [hts']; exact hok'.1, ?_, ?_⟩
      · rw [List.map_append, List.map_cons, hts']
        refine List.nodup_middle.mpr (List.nodup_cons.mpr ⟨hnotin, hsnc.2⟩)
      · rw [if_pos hcond]
        have hks' : t'.spec ∉ (mapDelete cache.bySpec t.spec).map Prod.fst := by
          intro hmem
          have hkperm : ((mapDelete cache.bySpec t.spec).map Prod.fst).Perm
              ((l1.map Record.spec) ++ l2.map Record.spec) := by
            have := hdelS.map Prod.fst
            simpa [List.map_map, Function.comp] using this
          rw [hts'] at hmem
          exact hnotin (hkperm.mem_iff.mp hmem)
        rw [mapSet_of_not_mem _ _ _ hks', List.map_append, List.map_cons]
        refine ((hdelS.append_right _).trans
          (List.perm_append_singleton _ _)).trans ?_
        rw [hts']
        exact List.perm_middle.symm
  simp only [applyOp]
  rw [updateHandler_found (l1 ++ t :: l2) cache key b t hres hl hgetI]
  refine ⟨hl, ?_, ?_, ?_, ?_, ?_, ?_⟩
  · show replaceInData cache.data t'.id t' =
      (l1 ++ t :: l2).map fun r => if r.id == t.id then t' else r
    rw [hstore', hdata']
  · show ((((l1 ++ t :: l2).map fun r => if r.id == t.id then t' else r)).map
      Record.spec).Nodup
    rw [hstore']
    exact hmain.2.1
  · show ((((l1 ++ t :: l2).map fun r => if r.id == t.id then t' else r)).map
      Record.id).Nodup
    rw [hstore', List.map_append, List.map_cons, htid]
    exact hin
  · show ∀ r ∈ (l1 ++ t :: l2).map fun x => if x.id == t.id then t' else x, r.spec ≠ ""
    rw [hstore']
    intro r hr
    rcases List.mem_append.mp hr with hr' | hr'
    · exact hne r (List.mem_append.mpr (.inl hr'))
    · rcases List.mem_cons.mp hr' with rfl | hr''
      · exact hmain.1
      · exact hne r (List.mem_append.mpr (.inr (List.mem_cons_of_mem t hr'')))
  · show (mapSet (if t.spec != "" && t.spec != t'.spec then mapDelete cache.bySpec t.spec
        else cache.bySpec) t'.spec t').Perm
      ((((l1 ++ t :: l2).map fun r => if r.id == t.id then t' else r)).map
        fun r => (r.spec, r))
    rw [hstore']
    exact hmain.2.2
  · show (mapSet cache.byId t'.id t').Perm
      ((((l1 ++ t :: l2).map fun r => if r.id == t.id then t' else r)).map
        fun r => (r.id, r))
    rw [hstore', List.map_append, List.map_cons]
    have h8 : (mapSet cache.byId t'.id t').Perm ((t.id, t') :: mapDelete cache.byId t.id) := by
      rw [htid]
      exact mapSet_perm_update cache.byId t.id t t' hkIn hmemI
    refine (h8.trans (hdelI.cons _)).trans ?_
    rw [htid]
    exact List.perm_middle.symm

theorem goodState_step (st : SysState) (op : Op) (hg : GoodState st) (hok : OpOK st op) :
    GoodState (applyOp st op) := by
  cases op with
  | create b newId => exact goodState_create st b newId hg hok
  | update key b => exact goodState_update st key b hg hok
  | deleteOne key => exact goodState_delete st key hg

/-- C1: the claim states that every sequence of create/update/delete
operations on a loaded cache preserves the agreement of `snapshot`,
`by_spec` and `by_id`.  Counterexample: starting from the coherent
two-record loaded state, one full update that renames `recA`'s spec to
`recB`'s spec leaves `recB` in the snapshot and `by_id` but evicts it
from `by_spec` (the update path performs no uniqueness check and
`bySpec.set` overwrites `recB`'s entry). -/
theorem C1_counterexample :
    Coherent cacheAB ∧ cacheAB.isLoaded = true ∧
    ¬ Coherent (applyOp ⟨storeAB, cacheAB⟩ opCollide).cache := by
  refine ⟨by decide, rfl, by decide⟩

/-- C1 (amended): for every sequence of create, update (full or
partial) and single-delete operations applied while the cache is loaded
and mirroring the store, the three structures contain exactly the same
records after each operation, provided each create uses a fresh id and
no update assigns a record a spec that is empty or already held by a
different record. -/
theorem C1_theorem (st : SysState) (ops : List Op) (hg : GoodState st)
    (hok : OpsOK st ops) :
    ∀ n : ℕ, Coherent (applyOps st (ops.take n)).cache := by
  induction ops generalizing st with
  | nil =>
    intro n
    simp only [List.take_nil, applyOps, List.foldl_nil]
    exact goodState_coherent st hg
  | cons op rest ih =>
    intro n
    cases n with
    | zero =>
      simp only [List.take_zero, applyOps, List.foldl_nil]
      exact goodState_coherent st hg
    | succ n =>
      rw [List.take_succ_cons]
      show Coherent (applyOps (applyOp st op) (rest.take n)).cache
      exact ih (applyOp st op) (goodState_step st op hg hok.1) hok.2 n

/-- C1 witness: one create applied to the freshly loaded empty cache
keeps the three structures coherent. -/
theorem C1_witness :
    Coherent (applyOps ⟨[], emptyLoaded⟩ ([Op.create bodyNew "idw"].take 1)).cache :=
  C1_theorem ⟨[], emptyLoaded⟩ [Op.create bodyNew "idw"]
    ⟨rfl, rfl, by simp, by simp, by simp, by simp [emptyLoaded], by simp [emptyLoaded]⟩
    ⟨by simp [OpOK], trivial⟩ 1

end VibeSteel
